import Mathlib

/-!
Verification development for the retained-mode UI core in src/gui/mod.rs
(widget tree in a pooled arena, two-pass measure/arrange layout,
visibility/transform propagation, hit-testing and picking, input routing).

Modelling conventions:
* f32 values are modelled as rationals extended with an explicit NaN
  (`F`), with the comparison operators returning false whenever NaN is
  involved, exactly as IEEE comparisons used by the source do.
* Code that can panic (borrowing a stale or null arena handle) is
  modelled in the Option monad, `none` standing for the panic.
* Recursion over the arena graph (parent chains, child lists addressed
  by handle) is fuel-indexed; `none` also results when fuel runs out.
* The files core/pool.rs, gui/widget.rs, gui/draw.rs and gui/event.rs of
  this repository are not under src/; the corresponding definitions are
  modelled from the specification and carry a doc comment saying so.
-/

namespace Rg3d

/-- Rational-with-NaN model of f32 values used by the layout code. -/
inductive F where
  | nan : F
  | val : Rat → F
deriving DecidableEq, Repr

/-- Mirrors f32::is_nan. -/
def F.isNan : F → Bool
  | F.nan => true
  | F.val _ => false

/-- IEEE greater-than: false whenever either side is NaN. -/
def fgt : F → F → Bool
  | F.val a, F.val b => decide (b < a)
  | _, _ => false

/-- IEEE less-than: false whenever either side is NaN. -/
def flt (a b : F) : Bool := fgt b a

/-- Addition with NaN propagation. -/
def F.add : F → F → F
  | F.val a, F.val b => F.val (a + b)
  | _, _ => F.nan

/-- Subtraction with NaN propagation. -/
def F.sub : F → F → F
  | F.val a, F.val b => F.val (a - b)
  | _, _ => F.nan

/-- Multiplication with NaN propagation. -/
def F.mul : F → F → F
  | F.val a, F.val b => F.val (a * b)
  | _, _ => F.nan

/-- Source helper maxf (src/gui/mod.rs lines 349-355): if a > b then a else b. -/
def maxf (a b : F) : F := if fgt a b then a else b

/-- Source helper minf (src/gui/mod.rs lines 358-364): if a < b then a else b. -/
def minf (a b : F) : F := if flt a b then a else b

/-- Two-component vector over the float model. Modelled from the spec:
core/math/vec2.rs is not under src; only componentwise construction and
addition are needed. -/
structure Vec2 where
  x : F
  y : F
deriving DecidableEq, Repr

/-- Vec2::ZERO. -/
def Vec2.ZERO : Vec2 := ⟨F.val 0, F.val 0⟩

/-- Componentwise vector addition. -/
def Vec2.add (a b : Vec2) : Vec2 := ⟨a.x.add b.x, a.y.add b.y⟩

/-- Rectangle with origin and extents. Modelled from the spec:
core/math Rect is not under src; the layout code only reads the four
fields. -/
structure RectF where
  x : F
  y : F
  w : F
  h : F
deriving DecidableEq, Repr

/-- Margin thickness (src/gui/mod.rs lines 65-70). -/
structure Thickness where
  left : F
  top : F
  right : F
  bottom : F
deriving DecidableEq, Repr

/-- Thickness::zero. -/
def Thickness.zeroT : Thickness := ⟨F.val 0, F.val 0, F.val 0, F.val 0⟩

/-- Horizontal alignment (src/gui/mod.rs lines 49-54). -/
inductive HorizontalAlignment where
  | Stretch
  | Left
  | Center
  | Right
deriving DecidableEq, Repr

/-- Vertical alignment (src/gui/mod.rs lines 57-62). -/
inductive VerticalAlignment where
  | Stretch
  | Top
  | Center
  | Bottom
deriving DecidableEq, Repr

/-- Node visibility (src/gui/mod.rs lines 99-105). -/
inductive Visibility where
  | Visible
  | Collapsed
  | Hidden
deriving DecidableEq, Repr

/-- Generation-checked arena handle. Modelled from the spec: core/pool.rs
is not under src; section 3 of the spec fixes equality by the pair
(index, generation) and a null sentinel distinguishable from any live
handle; live records never carry generation zero. -/
structure Handle where
  index : Nat
  generation : Nat
deriving DecidableEq, Repr

/-- Handle::NONE null sentinel. -/
def Handle.NONE : Handle := ⟨0, 0⟩

/-- Handle::is_none. -/
def Handle.is_none (h : Handle) : Bool := h = Handle.NONE

/-- Handle::is_some. -/
def Handle.is_some (h : Handle) : Bool := !h.is_none

/-- Command kind tag of a recorded drawing command. Modelled from the
spec: gui/draw.rs is not under src; section 4.4 gives the Geometry/Clip
tagging. -/
inductive CommandKind where
  | Geometry
  | Clip
deriving DecidableEq, Repr

/-- A recorded drawing command. Modelled from the spec: gui/draw.rs is
not under src; a command carries its kind and the region it covers,
here an axis-aligned rectangle, against which
is_command_contains_point tests the query point. -/
structure DrawCommand where
  kind : CommandKind
  bounds : RectF
deriving DecidableEq, Repr

/-- Point containment test for a command region. Modelled from the spec:
the drawing context exposes a point-in-command containment test. -/
def commandContainsPoint (c : DrawCommand) (pt : Vec2) : Bool :=
  (fgt pt.x c.bounds.x || pt.x == c.bounds.x) &&
  flt pt.x (c.bounds.x.add c.bounds.w) &&
  (fgt pt.y c.bounds.y || pt.y == c.bounds.y) &&
  flt pt.y (c.bounds.y.add c.bounds.h)

/-- Base widget state shared by all node variants. Modelled from the
spec: gui/widget.rs is not under src; the fields are the ones listed in
spec section 3 and read or written by the code in src/gui/mod.rs. -/
structure Widget where
  name : String := ""
  parent : Handle := Handle.NONE
  children : List Handle := []
  width : F := F.nan
  height : F := F.nan
  min_size : Vec2 := Vec2.ZERO
  max_size : Vec2 := Vec2.ZERO
  margin : Thickness := Thickness.zeroT
  horizontal_alignment : HorizontalAlignment := HorizontalAlignment.Stretch
  vertical_alignment : VerticalAlignment := VerticalAlignment.Stretch
  visibility : Visibility := Visibility.Visible
  desired_size : Vec2 := Vec2.ZERO
  actual_size : Vec2 := Vec2.ZERO
  actual_local_position : Vec2 := Vec2.ZERO
  screen_position : Vec2 := Vec2.ZERO
  global_visibility : Bool := true
  is_hit_test_visible : Bool := true
  is_mouse_over : Bool := false
  command_indices : List Nat := []
  measure_valid : Bool := false
  arrange_valid : Bool := false
deriving DecidableEq, Repr

/-- Horizontal margin total, margin.left + margin.right. -/
def marginX (w : Widget) : F := w.margin.left.add w.margin.right

/-- Vertical margin total, margin.top + margin.bottom. -/
def marginY (w : Widget) : F := w.margin.top.add w.margin.bottom

/-- Size offered to children during measure (src/gui/mod.rs lines
220-251): explicit width/height wins when strictly positive, else
available size minus margins floored at zero, then clamped through the
max-then-min if chain. -/
def size_for_child (w : Widget) (available_size : Vec2) : Vec2 :=
  let x :=
    let wv := if fgt w.width (F.val 0) then w.width
              else maxf (F.val 0) (available_size.x.sub (marginX w))
    if fgt wv w.max_size.x then w.max_size.x
    else if flt wv w.min_size.x then w.min_size.x
    else wv
  let y :=
    let hv := if fgt w.height (F.val 0) then w.height
              else maxf (F.val 0) (available_size.y.sub (marginY w))
    if fgt hv w.max_size.y then w.max_size.y
    else if flt hv w.min_size.y then w.min_size.y
    else hv
  ⟨x, y⟩

/-- Post-processing of the measure_override result in the Visible branch
of Control::measure (src/gui/mod.rs lines 254-284), kept in source
order: width override when not NaN, x clamp, y clamp, height override
when not NaN, margins added, capped at the available size. -/
def measure_desired (w : Widget) (available_size : Vec2) (override_size : Vec2) : Vec2 :=
  let dx0 := if w.width.isNan = false then w.width else override_size.x
  let dx1 := if fgt dx0 w.max_size.x then w.max_size.x
             else if flt dx0 w.min_size.x then w.min_size.x
             else dx0
  let dy0 := if fgt override_size.y w.max_size.y then w.max_size.y
             else if flt override_size.y w.min_size.y then w.min_size.y
             else override_size.y
  let dy1 := if w.height.isNan = false then w.height else dy0
  let dx2 := dx1.add (marginX w)
  let dy2 := dy1.add (marginY w)
  let dx3 := if fgt dx2 available_size.x then available_size.x else dx2
  let dy3 := if fgt dy2 available_size.y then available_size.y else dy2
  ⟨dx3, dy3⟩

/-- Control::measure (src/gui/mod.rs lines 213-292) acting on one
widget, with the variant measure_override result passed in as
override_size: a Visible node stores the post-processed desired size,
any other node stores zero; the measure_valid flag is set either way. -/
def measure (w : Widget) (available_size : Vec2) (override_size : Vec2) : Widget :=
  if w.visibility = Visibility.Visible then
    { w with desired_size := measure_desired w available_size override_size,
             measure_valid := true }
  else
    { w with desired_size := ⟨F.val 0, F.val 0⟩, measure_valid := true }

/-- Clamp into a min/max interval exactly as the claim C1 words it:
the candidate is first capped at the max, then the min takes precedence
whenever it exceeds the max-capped value. -/
def clampClaim (v lo hi : F) : F :=
  let m := if fgt v hi then hi else v
  if fgt lo m then lo else m

/-- Desired-size post-processing as claim C1 states it: on each axis the
explicit width/height (when set) overrides the computed value, then the
value is clamped into the min/max interval with min precedence, then the
margin is added back, then the result is capped at the available size. -/
def measure_desired_claim (w : Widget) (available_size : Vec2) (override_size : Vec2) : Vec2 :=
  let cx0 := if w.width.isNan = false then w.width else override_size.x
  let cx1 := (clampClaim cx0 w.min_size.x w.max_size.x).add (marginX w)
  let cx2 := if fgt cx1 available_size.x then available_size.x else cx1
  let cy0 := if w.height.isNan = false then w.height else override_size.y
  let cy1 := (clampClaim cy0 w.min_size.y w.max_size.y).add (marginY w)
  let cy2 := if fgt cy1 available_size.y then available_size.y else cy1
  ⟨cx2, cy2⟩

/-- Clamp as the source writes it: cap at max first, else raise to min,
an else-if chain in which the max test shadows the min test. -/
def clampCode (v lo hi : F) : F :=
  if fgt v hi then hi else if flt v lo then lo else v

/-- Cap a value so it does not exceed a limit (a NaN value is kept, as
the source comparison is false on NaN). -/
def capAt (v limit : F) : F := if fgt v limit then limit else v

/-- Desired-size post-processing as the code actually behaves, stated
compositionally: the width override feeds the x clamp, while on the y
axis the clamp applies to the computed value and the height override
then bypasses it; margins and the available-size cap follow. -/
def measure_desired_amended (w : Widget) (available_size : Vec2) (override_size : Vec2) : Vec2 :=
  ⟨capAt ((clampCode (if w.width.isNan then override_size.x else w.width)
            w.min_size.x w.max_size.x).add (marginX w)) available_size.x,
   capAt ((if w.height.isNan then clampCode override_size.y w.min_size.y w.max_size.y
           else w.height).add (marginY w)) available_size.y⟩

/-- Candidate size of Control::arrange before the explicit-size override
(src/gui/mod.rs lines 158-170): rect minus margins floored at zero, then
shrunk to the desired size minus margin on each non-Stretch axis. -/
def arrange_size_no_override (w : Widget) (final_rect : RectF) : Vec2 :=
  let sx0 := maxf (F.val 0) (final_rect.w.sub (marginX w))
  let sy0 := maxf (F.val 0) (final_rect.h.sub (marginY w))
  let sx := if w.horizontal_alignment ≠ HorizontalAlignment.Stretch
            then minf sx0 (w.desired_size.x.sub (marginX w)) else sx0
  let sy := if w.vertical_alignment ≠ VerticalAlignment.Stretch
            then minf sy0 (w.desired_size.y.sub (marginY w)) else sy0
  ⟨sx, sy⟩

/-- Candidate size of Control::arrange after the explicit-size override
(src/gui/mod.rs lines 172-177): width/height replace the candidate only
when strictly greater than zero. -/
def arrange_candidate (w : Widget) (final_rect : RectF) : Vec2 :=
  let s := arrange_size_no_override w final_rect
  ⟨if fgt w.width (F.val 0) then w.width else s.x,
   if fgt w.height (F.val 0) then w.height else s.y⟩

/-- Control::arrange (src/gui/mod.rs lines 146-211) acting on one
widget, with the variant arrange_override step passed in as a function
of the candidate size: skipped for non-Visible nodes; otherwise the
final size is capped at the rect, the origin offset is derived from the
alignments, and actual size and local position are stored. -/
def arrange (w : Widget) (final_rect : RectF) (ov : Vec2 → Vec2) : Widget :=
  if w.visibility ≠ Visibility.Visible then w
  else
    let size_without_margin : Vec2 :=
      ⟨maxf (F.val 0) (final_rect.w.sub (marginX w)),
       maxf (F.val 0) (final_rect.h.sub (marginY w))⟩
    let size1 := ov (arrange_candidate w final_rect)
    let sx := if fgt size1.x final_rect.w then final_rect.w else size1.x
    let sy := if fgt size1.y final_rect.h then final_rect.h else size1.y
    let originX0 := final_rect.x.add w.margin.left
    let originY0 := final_rect.y.add w.margin.top
    let ox := match w.horizontal_alignment with
      | HorizontalAlignment.Center =>
          originX0.add ((size_without_margin.x.sub sx).mul (F.val (1/2)))
      | HorizontalAlignment.Stretch =>
          originX0.add ((size_without_margin.x.sub sx).mul (F.val (1/2)))
      | HorizontalAlignment.Right => originX0.add (size_without_margin.x.sub sx)
      | HorizontalAlignment.Left => originX0
    let oy := match w.vertical_alignment with
      | VerticalAlignment.Center =>
          originY0.add ((size_without_margin.y.sub sy).mul (F.val (1/2)))
      | VerticalAlignment.Stretch =>
          originY0.add ((size_without_margin.y.sub sy).mul (F.val (1/2)))
      | VerticalAlignment.Bottom => originY0.add (size_without_margin.y.sub sy)
      | VerticalAlignment.Top => originY0
    { w with actual_size := ⟨sx, sy⟩,
             actual_local_position := ⟨ox, oy⟩,
             arrange_valid := true }

/-- Widget tree: the arena's parent/child links restricted to the tree
reachable from the root, used to model the recursive traversal of
UserInterface::update_node. -/
inductive WTree where
  | node : Widget → List WTree → WTree
deriving Repr

/-- Widget stored at the root of a tree. -/
def WTree.widget0 : WTree → Widget
  | WTree.node w _ => w

/-- Child subtrees of the root. -/
def WTree.kids : WTree → List WTree
  | WTree.node _ cs => cs

mutual

/-- UserInterface::update_node (src/gui/mod.rs lines 469-488): computes
the node's screen position as its actual local position plus the
parent's screen position (just the local position when there is no
parent under pinfo none), computes global visibility as local Visible
AND the parent's global visibility (true for the root), stores both and
recurses into the children with the freshly stored values. -/
def update_node_tree (pinfo : Option (Vec2 × Bool)) : WTree → WTree
  | WTree.node w cs =>
    let sp := match pinfo with
      | some p => w.actual_local_position.add p.1
      | none => w.actual_local_position
    let gv := decide (w.visibility = Visibility.Visible) &&
      (match pinfo with
       | some p => p.2
       | none => true)
    WTree.node { w with screen_position := sp, global_visibility := gv }
      (update_children (sp, gv) cs)

/-- Recursion of update_node over the children list. -/
def update_children (p : Vec2 × Bool) : List WTree → List WTree
  | [] => []
  | c :: rest => update_node_tree (some p) c :: update_children p rest

end

mutual

/-- All parent/child widget pairs of a tree, parents first. -/
def WTree.edges : WTree → List (Widget × Widget)
  | WTree.node w cs => edges_from w cs

/-- Edges contributed by one node's child list. -/
def edges_from (w : Widget) : List WTree → List (Widget × Widget)
  | [] => []
  | c :: rest => (w, c.widget0) :: (WTree.edges c ++ edges_from w rest)

end

/-- Relation claim C2 asserts for every parent/child pair after the
update pass. -/
def edgeProp (p c : Widget) : Prop :=
  c.global_visibility = (decide (c.visibility = Visibility.Visible) && p.global_visibility) ∧
  c.screen_position = c.actual_local_position.add p.screen_position

/-- One arena slot: its current generation and its payload, vacant when
none. Modelled from the spec: core/pool.rs is not under src; spec
sections 3 and 4.1 describe the sparse generation-checked store. -/
structure PoolRecord (α : Type) where
  generation : Nat
  payload : Option α
deriving DecidableEq, Repr

/-- Generational arena. Modelled from the spec (core/pool.rs is not
under src). -/
structure Pool (α : Type) where
  records : List (PoolRecord α)
deriving DecidableEq, Repr

/-- Pool::borrow, in the Option monad: none models the fail-fast panic
on a stale, out-of-range or null handle (spec sections 4.1 and 7a; live
records never carry generation zero, so the null sentinel, generation
zero, never resolves). -/
def Pool.borrow {α : Type} (p : Pool α) (h : Handle) : Option α :=
  match p.records[h.index]? with
  | some r => if r.generation = h.generation ∧ h.generation ≠ 0 then r.payload else none
  | none => none

/-- Pool::is_valid_handle: never fails, true exactly when borrowing
would succeed. -/
def Pool.is_valid_handle {α : Type} (p : Pool α) (h : Handle) : Bool :=
  (p.borrow h).isSome

/-- Pool::spawn: allocate a fresh slot holding the payload and return
the new pool with the handle. This core never frees slots, so spawn is
modelled as appending a generation-one record. -/
def Pool.spawn {α : Type} (p : Pool α) (a : α) : Pool α × Handle :=
  ({ records := p.records ++ [⟨1, some a⟩] }, ⟨p.records.length, 1⟩)

/-- Mutation through Pool::borrow_mut: replace the payload of the slot
the handle resolves to; none models the borrow panic. -/
def Pool.modifyAt {α : Type} (p : Pool α) (h : Handle) (f : α → α) : Option (Pool α) :=
  match p.borrow h with
  | some a => some { records := p.records.set h.index ⟨h.generation, some (f a)⟩ }
  | none => none

/-- Routed UI event kinds (gui/event.rs is not under src; modelled from
spec section 4.6; key codes and mouse buttons are opaque numbers). -/
inductive UIEventKind where
  | mouseDown (pos : Vec2) (button : Nat)
  | mouseUp (pos : Vec2) (button : Nat)
  | mouseMove (pos : Vec2)
  | mouseEnter
  | mouseLeave
  | mouseWheel (pos : Vec2) (amount : F)
  | keyDown (code : Nat)
  | keyUp (code : Nat)
  | text (symbol : Char)
deriving DecidableEq, Repr

/-- Routed UI event record (gui/event.rs is not under src; modelled from
spec section 4.6). -/
structure UIEvent where
  handled : Bool
  kind : UIEventKind
  target : Handle
  source : Handle
deriving DecidableEq, Repr

/-- Raw device button state. Modelled from the spec: the raw input event
contract of spec section 6. -/
inductive ElementState where
  | Pressed
  | Released
deriving DecidableEq, Repr

/-- Raw mouse wheel delta. Modelled from the spec: only the vertical
line-delta form is consumed. -/
inductive MouseScrollDelta where
  | LineDelta (x : F) (y : F)
  | Other
deriving DecidableEq, Repr

/-- Raw window events consumed by process_input_event. Modelled from
the spec (raw input event contract, section 6). -/
inductive WindowEvent where
  | MouseInput (button : Nat) (state : ElementState)
  | CursorMoved (position : Vec2)
  | MouseWheel (delta : MouseScrollDelta)
  | KeyboardInput (state : ElementState) (virtual_keycode : Option Nat)
  | ReceivedCharacter (symbol : Char)
  | Other
deriving DecidableEq, Repr

/-- The interface state (src/gui/mod.rs lines 333-346); the drawing
context is represented by its committed command list, which is all the
hit-testing code reads from it. -/
structure UserInterface where
  nodes : Pool Widget
  root_canvas : Handle
  picked_node : Handle
  prev_picked_node : Handle
  captured_node : Handle
  keyboard_focus_node : Handle
  mouse_position : Vec2
  events : List UIEvent
  commands : List DrawCommand
deriving DecidableEq, Repr

/-- UserInterface::capture_mouse (src/gui/mod.rs lines 407-414): stores
the handle and answers true exactly when no capture is held. -/
def capture_mouse (ui : UserInterface) (node : Handle) : Bool × UserInterface :=
  if ui.captured_node.is_none then (true, { ui with captured_node := node })
  else (false, ui)

/-- UserInterface::release_mouse_capture (src/gui/mod.rs lines 417-419). -/
def release_mouse_capture (ui : UserInterface) : UserInterface :=
  { ui with captured_node := Handle.NONE }

/-- Whether some own command of the widget is a Clip command containing
the point (the loop of is_node_clipped, src/gui/mod.rs lines 567-574);
out-of-range indices are skipped. -/
def hasClipContaining (ui : UserInterface) (w : Widget) (pt : Vec2) : Bool :=
  w.command_indices.any fun i =>
    match ui.commands[i]? with
    | some c => decide (c.kind = CommandKind.Clip) && commandContainsPoint c pt
    | none => false

/-- Whether some own command of the widget is a Geometry command
containing the point (the loop of is_node_contains_point,
src/gui/mod.rs lines 592-598). -/
def hasGeometryContaining (ui : UserInterface) (w : Widget) (pt : Vec2) : Bool :=
  w.command_indices.any fun i =>
    match ui.commands[i]? with
    | some c => decide (c.kind = CommandKind.Geometry) && commandContainsPoint c pt
    | none => false

/-- UserInterface::is_node_clipped (src/gui/mod.rs lines 559-582):
clipped defaults to true; a globally invisible node is clipped; a point
inside one of the node's own Clip commands unclips it, and then the
parent's clipping is consulted when there is a parent. Fuel bounds the
parent recursion; none models a panic or exhausted fuel. -/
def is_node_clipped (fuel : Nat) (ui : UserInterface) (node_handle : Handle) (pt : Vec2) :
    Option Bool :=
  match fuel with
  | 0 => none
  | fuel + 1 =>
    match ui.nodes.borrow node_handle with
    | none => none
    | some w =>
      if w.global_visibility = false then some true
      else
        let clipped := !hasClipContaining ui w pt
        if w.parent.is_none = false ∧ clipped = false then
          is_node_clipped fuel ui w.parent pt
        else some clipped

/-- UserInterface::is_node_contains_point (src/gui/mod.rs lines
584-602): false for globally invisible nodes; otherwise the node must
be unclipped and one of its own Geometry commands must contain the
point. -/
def is_node_contains_point (fuel : Nat) (ui : UserInterface) (node_handle : Handle) (pt : Vec2) :
    Option Bool :=
  match ui.nodes.borrow node_handle with
  | none => none
  | some w =>
    if w.global_visibility = false then some false
    else
      match is_node_clipped fuel ui node_handle pt with
      | none => none
      | some clipped =>
        if clipped = false then some (hasGeometryContaining ui w pt)
        else some false

/-- The child loop of pick_node, threading the picked handle, the
topmost picked level and the mutable counter; the recursive pick of a
child is supplied as the function argument. -/
def pick_children (f : Handle → Int → Option (Handle × Int)) :
    List Handle → Handle → Int → Int → Option (Handle × Int)
  | [], picked, _, level => some (picked, level)
  | c :: rest, picked, topmost, level =>
    match f c (level + 1) with
    | none => none
    | some (picked_child, level1) =>
      if picked_child.is_none = false ∧ topmost < level1 then
        pick_children f rest picked_child level1 level1
      else
        pick_children f rest picked topmost level1

/-- UserInterface::pick_node (src/gui/mod.rs lines 604-628): a node
whose hit-test flag is cleared prunes its whole subtree; otherwise the
candidate is the node itself when it contains the point, at the current
value of the mutable level counter, and each child pick is taken
whenever it is non-null and the counter, already advanced by the whole
child traversal, exceeds the recorded topmost level. The counter is
threaded explicitly; none models a panic or exhausted fuel. -/
def pick_node (fuel : Nat) (ui : UserInterface) (node_handle : Handle) (pt : Vec2)
    (level : Int) : Option (Handle × Int) :=
  match fuel with
  | 0 => none
  | fuel + 1 =>
    match ui.nodes.borrow node_handle with
    | none => none
    | some w =>
      if w.is_hit_test_visible = false then some (Handle.NONE, level)
      else
        match is_node_contains_point fuel ui node_handle pt with
        | none => none
        | some b =>
          let init : Handle × Int := if b then (node_handle, level) else (Handle.NONE, 0)
          pick_children (fun c lv => pick_node fuel ui c pt lv) w.children init.1 init.2 level

/-- Child fold of the reference picking semantics: any successful child
pick replaces the accumulator. -/
def pick_simple_children (f : Handle → Option Handle) :
    List Handle → Handle → Option Handle
  | [], picked => some picked
  | c :: rest, picked =>
    match f c with
    | none => none
    | some r =>
      pick_simple_children f rest (if r.is_none = false then r else picked)

/-- Reference picking semantics named by the amended claim C5: a
hit-test-ineligible node yields no pick; otherwise the result is the
pick of the last child (in child-list order) whose subtree pick
succeeds, falling back to the node itself when it contains the point,
and to the null handle otherwise. -/
def pick_simple (fuel : Nat) (ui : UserInterface) (node_handle : Handle) (pt : Vec2) :
    Option Handle :=
  match fuel with
  | 0 => none
  | fuel + 1 =>
    match ui.nodes.borrow node_handle with
    | none => none
    | some w =>
      if w.is_hit_test_visible = false then some Handle.NONE
      else
        match is_node_contains_point fuel ui node_handle pt with
        | none => none
        | some b =>
          pick_simple_children (fun c => pick_simple fuel ui c pt) w.children
            (if b then node_handle else Handle.NONE)

/-- UserInterface::hit_test (src/gui/mod.rs lines 630-637): the captured
node is answered unconditionally while its handle is valid, otherwise a
geometric pick from the root with the level counter starting at zero. -/
def hit_test (fuel : Nat) (ui : UserInterface) (pt : Vec2) : Option Handle :=
  if ui.nodes.is_valid_handle ui.captured_node then some ui.captured_node
  else Option.map Prod.fst (pick_node fuel ui ui.root_canvas pt 0)

/-- Child loop of find_by_criteria_down; the recursive search of a
child subtree is supplied as the function argument. -/
def find_down_children (f : Handle → Option Handle) : List Handle → Option Handle
  | [] => some Handle.NONE
  | c :: rest =>
    match f c with
    | none => none
    | some result =>
      if result.is_some then some result
      else find_down_children f rest

/-- UserInterface::find_by_criteria_down (src/gui/mod.rs lines 641-658):
answer the node itself when it matches, else the first subtree search
that answers a non-null handle, else the null handle. -/
def find_by_criteria_down (fuel : Nat) (ui : UserInterface) (node_handle : Handle)
    (func : Widget → Bool) : Option Handle :=
  match fuel with
  | 0 => none
  | fuel + 1 =>
    match ui.nodes.borrow node_handle with
    | none => none
    | some w =>
      if func w then some node_handle
      else find_down_children (fun c => find_by_criteria_down fuel ui c func) w.children

/-- UserInterface::find_by_criteria_up (src/gui/mod.rs lines 662-671):
answer the node itself when it matches, else recurse into the parent
handle; the borrow of the parent happens unconditionally, so past the
root the null handle is borrowed. -/
def find_by_criteria_up (fuel : Nat) (ui : UserInterface) (node_handle : Handle)
    (func : Widget → Bool) : Option Handle :=
  match fuel with
  | 0 => none
  | fuel + 1 =>
    match ui.nodes.borrow node_handle with
    | none => none
    | some w =>
      if func w then some node_handle
      else find_by_criteria_up fuel ui w.parent func

/-- UserInterface::unlink_node (src/gui/mod.rs lines 433-447): clear the
node's parent field, then remove the first occurrence of the node from
the former parent's children list when there was a parent. -/
def unlink_node (ui : UserInterface) (node_handle : Handle) : Option UserInterface :=
  match ui.nodes.borrow node_handle with
  | none => none
  | some w =>
    let parent_handle := w.parent
    match ui.nodes.modifyAt node_handle (fun n => { n with parent := Handle.NONE }) with
    | none => none
    | some pool1 =>
      if parent_handle.is_some then
        match pool1.modifyAt parent_handle
            (fun p => { p with children := p.children.erase node_handle }) with
        | none => none
        | some pool2 => some { ui with nodes := pool2 }
      else some { ui with nodes := pool1 }

/-- UserInterface::link_nodes (src/gui/mod.rs lines 423-429): unlink the
child from any previous parent, set its parent field, push it onto the
new parent's children list. -/
def link_nodes (ui : UserInterface) (child_handle parent_handle : Handle) :
    Option UserInterface :=
  match unlink_node ui child_handle with
  | none => none
  | some ui1 =>
    match ui1.nodes.modifyAt child_handle (fun c => { c with parent := parent_handle }) with
    | none => none
    | some pool1 =>
      match pool1.modifyAt parent_handle
          (fun p => { p with children := p.children ++ [child_handle] }) with
      | none => none
      | some pool2 => some { ui1 with nodes := pool2 }

/-- Linking loop of add_node over the widget's original children. -/
def link_all (ui : UserInterface) (cs : List Handle) (parent_handle : Handle) :
    Option UserInterface :=
  match cs with
  | [] => some ui
  | c :: rest =>
    match link_nodes ui c parent_handle with
    | none => none
    | some ui1 => link_all ui1 rest parent_handle

/-- UserInterface::add_node (src/gui/mod.rs lines 393-404): spawn the
widget with an emptied children list, link it under the root canvas
when one exists, then link each of its original children under it. -/
def add_node (ui : UserInterface) (node : Widget) : Option (UserInterface × Handle) :=
  let children := node.children
  let spawned := ui.nodes.spawn { node with children := [] }
  let node_handle := spawned.2
  let ui1 : UserInterface := { ui with nodes := spawned.1 }
  match (if ui1.root_canvas.is_some then link_nodes ui1 node_handle ui1.root_canvas
         else some ui1) with
  | none => none
  | some ui2 =>
    match link_all ui2 children node_handle with
    | none => none
    | some ui3 => some (ui3, node_handle)

/-- Append one UI event (pushed to the back of the shared queue with no
target, as every enqueue site of process_input_event does). -/
def push_event (ui : UserInterface) (kind : UIEventKind) (source : Handle) : UserInterface :=
  { ui with events := ui.events ++ [⟨false, kind, Handle.NONE, source⟩] }

/-- Mouse-leave part of the CursorMoved branch (src/gui/mod.rs lines
830-849): when the new pick differs from the previous one and the
previous node is live with its mouse-over flag set, clear the flag and
enqueue MouseLeave sourced at the previous node. -/
def cursor_leave_step (ui : UserInterface) : Option UserInterface :=
  if ui.picked_node ≠ ui.prev_picked_node then
    if ui.prev_picked_node.is_some then
      match ui.nodes.borrow ui.prev_picked_node with
      | none => none
      | some pw =>
        if pw.is_mouse_over then
          match ui.nodes.modifyAt ui.prev_picked_node
              (fun w => { w with is_mouse_over := false }) with
          | none => none
          | some pool1 =>
            some (push_event { ui with nodes := pool1 } UIEventKind.mouseLeave
              ui.prev_picked_node)
        else some ui
    else some ui
  else some ui

/-- Mouse-enter and mouse-move part of the CursorMoved branch
(src/gui/mod.rs lines 851-879): when a node is picked, set its
mouse-over flag and enqueue MouseEnter if it was clear, then always
enqueue MouseMove to it; the boolean result is event_processed. -/
def cursor_enter_move_step (ui : UserInterface) : Option (UserInterface × Bool) :=
  if ui.picked_node.is_none = false then
    match ui.nodes.borrow ui.picked_node with
    | none => none
    | some pw =>
      match (if pw.is_mouse_over = false then
               (ui.nodes.modifyAt ui.picked_node
                 (fun w => { w with is_mouse_over := true })).map
                 (fun p => (({ ui with nodes := p } : UserInterface), true))
             else some (ui, false)) with
      | none => none
      | some (ui1, fire) =>
        let ui2 := if fire then push_event ui1 UIEventKind.mouseEnter ui1.picked_node else ui1
        let ui3 := push_event ui2 (UIEventKind.mouseMove ui2.mouse_position) ui2.picked_node
        some (ui3, true)
  else some (ui, false)

/-- UserInterface::process_input_event (src/gui/mod.rs lines 786-947):
translates one raw window event into queued UI events, answering whether
it was consumed, and always ends by copying the picked node into the
previously-picked node. -/
def process_input_event (fuel : Nat) (ui : UserInterface) (event : WindowEvent) :
    Option (UserInterface × Bool) :=
  match event with
  | WindowEvent.MouseInput button state =>
    match state with
    | ElementState.Pressed =>
      match hit_test fuel ui ui.mouse_position with
      | none => none
      | some picked =>
        let ui1 : UserInterface := { ui with picked_node := picked,
                                             keyboard_focus_node := picked }
        let r : UserInterface × Bool :=
          if ui1.picked_node.is_none = false then
            (push_event ui1 (UIEventKind.mouseDown ui1.mouse_position button) ui1.picked_node,
             true)
          else (ui1, false)
        some ({ r.1 with prev_picked_node := r.1.picked_node }, r.2)
    | ElementState.Released =>
      let r : UserInterface × Bool :=
        if ui.picked_node.is_none = false then
          (push_event ui (UIEventKind.mouseUp ui.mouse_position button) ui.picked_node, true)
        else (ui, false)
      some ({ r.1 with prev_picked_node := r.1.picked_node }, r.2)
  | WindowEvent.CursorMoved position =>
    let ui0 : UserInterface := { ui with mouse_position := position }
    match hit_test fuel ui0 ui0.mouse_position with
    | none => none
    | some picked =>
      let ui1 : UserInterface := { ui0 with picked_node := picked }
      match cursor_leave_step ui1 with
      | none => none
      | some ui2 =>
        match cursor_enter_move_step ui2 with
        | none => none
        | some r => some ({ r.1 with prev_picked_node := r.1.picked_node }, r.2)
  | WindowEvent.MouseWheel delta =>
    match delta with
    | MouseScrollDelta.LineDelta _ y =>
      let r : UserInterface × Bool :=
        if ui.picked_node.is_none = false then
          (push_event ui (UIEventKind.mouseWheel ui.mouse_position y) ui.picked_node, true)
        else (ui, false)
      some ({ r.1 with prev_picked_node := r.1.picked_node }, r.2)
    | MouseScrollDelta.Other =>
      some ({ ui with prev_picked_node := ui.picked_node }, false)
  | WindowEvent.KeyboardInput state keycode =>
    let r : UserInterface × Bool :=
      if ui.keyboard_focus_node.is_some then
        match keycode with
        | some code =>
          (push_event ui
            (match state with
             | ElementState.Pressed => UIEventKind.keyDown code
             | ElementState.Released => UIEventKind.keyUp code)
            ui.keyboard_focus_node, true)
        | none => (ui, false)
      else (ui, false)
    some ({ r.1 with prev_picked_node := r.1.picked_node }, r.2)
  | WindowEvent.ReceivedCharacter symbol =>
    let r : UserInterface × Bool :=
      if ui.keyboard_focus_node.is_some then
        (push_event ui (UIEventKind.text symbol) ui.keyboard_focus_node, true)
      else (ui, false)
    some ({ r.1 with prev_picked_node := r.1.picked_node }, r.2)
  | WindowEvent.Other =>
    some ({ ui with prev_picked_node := ui.picked_node }, false)

/-- Tree-mutating operations of the claim C9 state machine. -/
inductive UIOp where
  | addNodeOp (node : Widget)
  | linkOp (child parent : Handle)
  | unlinkOp (node : Handle)

/-- Run one mutating operation. -/
def run_op (ui : UserInterface) : UIOp → Option UserInterface
  | UIOp.addNodeOp w => (add_node ui w).map Prod.fst
  | UIOp.linkOp c p => link_nodes ui c p
  | UIOp.unlinkOp h => unlink_node ui h

/-- Run a sequence of mutating operations, aborting on panic. -/
def run_ops (ui : UserInterface) : List UIOp → Option UserInterface
  | [] => some ui
  | op :: rest =>
    match run_op ui op with
    | none => none
    | some ui1 => run_ops ui1 rest

/-- The state right after UserInterface::new (src/gui/mod.rs lines
367-386): one spawned root canvas widget with no parent and no
children, every routing handle null. -/
def init_ui : UserInterface :=
  { nodes := { records := [⟨1, some {}⟩] },
    root_canvas := ⟨0, 1⟩,
    picked_node := Handle.NONE,
    prev_picked_node := Handle.NONE,
    captured_node := Handle.NONE,
    keyboard_focus_node := Handle.NONE,
    mouse_position := Vec2.ZERO,
    events := [],
    commands := [] }

/-- States reachable from the freshly created interface through the
linking operations. -/
def Reachable (ui : UserInterface) : Prop :=
  ∃ ops : List UIOp, run_ops init_ui ops = some ui

/-- Every handle on a live node's children list is live and names that
node as its parent. -/
def ChildOk (ui : UserInterface) : Prop :=
  ∀ p wp, ui.nodes.borrow p = some wp → ∀ c, c ∈ wp.children →
    ∃ wc, ui.nodes.borrow c = some wc ∧ wc.parent = p

/-- Every live node with a non-null parent field is listed exactly once
on that parent's children list. -/
def ParentOk (ui : UserInterface) : Prop :=
  ∀ c wc, ui.nodes.borrow c = some wc → wc.parent ≠ Handle.NONE →
    ∃ wp, ui.nodes.borrow wc.parent = some wp ∧ wp.children.count c = 1

/-- Both sides of the parent/child link invariant. -/
def LinksInv (ui : UserInterface) : Prop := ChildOk ui ∧ ParentOk ui

/-- ParentOk with one handle exempted (used across the spawn step of
add_node, whose fresh node still carries its caller-supplied parent
field). -/
def ParentOkExcept (ui : UserInterface) (e : Handle) : Prop :=
  ∀ c wc, ui.nodes.borrow c = some wc → wc.parent ≠ Handle.NONE → c ≠ e →
    ∃ wp, ui.nodes.borrow wc.parent = some wp ∧ wp.children.count c = 1

/-- The exempted handle appears on no children list. -/
def NotListed (ui : UserInterface) (e : Handle) : Prop :=
  ∀ p wp, ui.nodes.borrow p = some wp → e ∉ wp.children

/-- Weakened link invariant holding between the spawn and the relink of
add_node. -/
def LinksInvExcept (ui : UserInterface) (e : Handle) : Prop :=
  ChildOk ui ∧ ParentOkExcept ui e ∧ NotListed ui e

/-- Concrete widget for the C1 counterexample: explicit height 10 with
max height 5, everything else neutral. -/
def c1Widget : Widget :=
  { height := F.val 10,
    max_size := ⟨F.val 100, F.val 5⟩ }

/-- Concrete available size for the C1 counterexample. -/
def c1Avail : Vec2 := ⟨F.val 100, F.val 100⟩

/-- Concrete measure_override result for the C1 counterexample. -/
def c1Override : Vec2 := ⟨F.val 0, F.val 3⟩

/-- Concrete widget for the C4 counterexample: explicit width 0. -/
def c4Widget : Widget := { width := F.val 0 }

/-- Concrete final rect for the C4 counterexample. -/
def c4Rect : RectF := ⟨F.val 0, F.val 0, F.val 50, F.val 40⟩

/-- A clip or geometry rectangle covering the square from the origin to
ten in both axes. -/
def bigRect : RectF := ⟨F.val 0, F.val 0, F.val 10, F.val 10⟩

/-- Concrete interface for picking examples: the root holds child a
(which holds grandchild a1) and then child b; a1 and b both draw
geometry containing the probe point, a and the root only clip. -/
def pickUI : UserInterface :=
  { nodes := { records :=
      [⟨1, some { children := [⟨1, 1⟩, ⟨3, 1⟩], command_indices := [0] }⟩,
       ⟨1, some { parent := ⟨0, 1⟩, children := [⟨2, 1⟩], command_indices := [1] }⟩,
       ⟨1, some { parent := ⟨1, 1⟩, command_indices := [2, 3] }⟩,
       ⟨1, some { parent := ⟨0, 1⟩, command_indices := [4, 5] }⟩] },
    root_canvas := ⟨0, 1⟩,
    picked_node := Handle.NONE,
    prev_picked_node := Handle.NONE,
    captured_node := Handle.NONE,
    keyboard_focus_node := Handle.NONE,
    mouse_position := Vec2.ZERO,
    events := [],
    commands :=
      [⟨CommandKind.Clip, bigRect⟩,
       ⟨CommandKind.Clip, bigRect⟩,
       ⟨CommandKind.Clip, bigRect⟩,
       ⟨CommandKind.Geometry, bigRect⟩,
       ⟨CommandKind.Clip, bigRect⟩,
       ⟨CommandKind.Geometry, bigRect⟩] }

/-- Probe point for the picking examples. -/
def pickPt : Vec2 := ⟨F.val 5, F.val 5⟩

/-- Grandchild handle of pickUI, nesting depth two. -/
def pickA1 : Handle := ⟨2, 1⟩

/-- Second-child handle of pickUI, nesting depth one, visited after the
subtree of the first child. -/
def pickB : Handle := ⟨3, 1⟩

/-- Concrete interface for the mouse enter/leave scenario: children x
and y of the root draw geometry over disjoint squares. -/
def moveUI : UserInterface :=
  { nodes := { records :=
      [⟨1, some { children := [⟨1, 1⟩, ⟨2, 1⟩], command_indices := [0] }⟩,
       ⟨1, some { parent := ⟨0, 1⟩, command_indices := [1, 2] }⟩,
       ⟨1, some { parent := ⟨0, 1⟩, command_indices := [3, 4] }⟩] },
    root_canvas := ⟨0, 1⟩,
    picked_node := Handle.NONE,
    prev_picked_node := Handle.NONE,
    captured_node := Handle.NONE,
    keyboard_focus_node := Handle.NONE,
    mouse_position := Vec2.ZERO,
    events := [],
    commands :=
      [⟨CommandKind.Clip, ⟨F.val 0, F.val 0, F.val 20, F.val 10⟩⟩,
       ⟨CommandKind.Clip, bigRect⟩,
       ⟨CommandKind.Geometry, bigRect⟩,
       ⟨CommandKind.Clip, ⟨F.val 10, F.val 0, F.val 10, F.val 10⟩⟩,
       ⟨CommandKind.Geometry, ⟨F.val 10, F.val 0, F.val 10, F.val 10⟩⟩] }

/-- Node x of moveUI. -/
def moveX : Handle := ⟨1, 1⟩

/-- Node y of moveUI. -/
def moveY : Handle := ⟨2, 1⟩

/-- First cursor position, inside node x only. -/
def movePt1 : Vec2 := ⟨F.val 5, F.val 5⟩

/-- Second cursor position, inside node y only. -/
def movePt2 : Vec2 := ⟨F.val 15, F.val 5⟩

/-- Interface whose captured node is a valid live handle. -/
def capturedUI : UserInterface := { init_ui with captured_node := ⟨0, 1⟩ }

/-- Widget stored at node x of moveUI. -/
def moveWX : Widget := { parent := ⟨0, 1⟩, command_indices := [1, 2] }

/-- Widget stored at node y of moveUI. -/
def moveWY : Widget := { parent := ⟨0, 1⟩, command_indices := [3, 4] }

/-- State of moveUI after the first cursor move picks x. -/
def moveUI1 : UserInterface :=
  { moveUI with
    mouse_position := movePt1
    picked_node := moveX
    prev_picked_node := moveX
    nodes := ⟨moveUI.nodes.records.set 1 ⟨1, some { moveWX with is_mouse_over := true }⟩⟩
    events := [⟨false, UIEventKind.mouseEnter, Handle.NONE, moveX⟩,
               ⟨false, UIEventKind.mouseMove movePt1, Handle.NONE, moveX⟩] }

/-- State after the second cursor move picks y. -/
def moveUI2 : UserInterface :=
  { moveUI1 with
    mouse_position := movePt2
    picked_node := moveY
    prev_picked_node := moveY
    nodes := ⟨(moveUI1.nodes.records.set 1
        ⟨1, some { moveWX with is_mouse_over := false }⟩).set 2
      ⟨1, some { moveWY with is_mouse_over := true }⟩⟩
    events := moveUI1.events ++
      [⟨false, UIEventKind.mouseLeave, Handle.NONE, moveX⟩,
       ⟨false, UIEventKind.mouseEnter, Handle.NONE, moveY⟩,
       ⟨false, UIEventKind.mouseMove movePt2, Handle.NONE, moveY⟩] }

/-- Link invariant together with the concrete root-canvas handle every
state reachable from UserInterface::new carries. -/
def RootedInv (ui : UserInterface) : Prop :=
  LinksInv ui ∧ ui.root_canvas = (⟨0, 1⟩ : Handle)

/-- Concrete state obtained by linking the root canvas onto itself,
exercising the claim C9 link postconditions. -/
def c9Linked : UserInterface :=
  (link_nodes init_ui ⟨0, 1⟩ ⟨0, 1⟩).getD init_ui

/-- Borrowing through the null sentinel never succeeds: its generation
is zero while live records are generation-checked against nonzero. -/
theorem pool_borrow_none {α : Type} (p : Pool α) : p.borrow Handle.NONE = none := by
  unfold Pool.borrow
  cases h : p.records[(Handle.NONE).index]? with
  | none => rfl
  | some r => simp [Handle.NONE]

/-- The null sentinel is never a valid handle. -/
theorem pool_valid_none {α : Type} (p : Pool α) : p.is_valid_handle Handle.NONE = false := by
  unfold Pool.is_valid_handle
  rw [pool_borrow_none]
  rfl

unseal Rat.add Rat.sub Rat.mul in
/-- Claim C1, counterexample: with explicit height 10 and max height 5
the stored desired height is 10 (the code clamps the y axis before the
height override), while the claimed post-processing order yields 5. -/
theorem claim_c1_counterexample :
    c1Widget.visibility = Visibility.Visible ∧
    (measure c1Widget c1Avail c1Override).desired_size ≠
      measure_desired_claim c1Widget c1Avail c1Override := by
  constructor
  · rfl
  · decide

/-- Claim C1 as amended: for a Visible node, measure stores the variant
measure_override result post-processed with the explicit width override
applied before the x clamp but the explicit height override applied
after (and hence bypassing) the y clamp, each clamp being the
max-test-first else-if chain, then margins added, then each axis capped
at the available size. -/
theorem claim_c1 (w : Widget) (available_size override_size : Vec2)
    (h : w.visibility = Visibility.Visible) :
    (measure w available_size override_size).desired_size =
      measure_desired_amended w available_size override_size := by
  unfold measure
  rw [if_pos h]
  show measure_desired w available_size override_size =
    measure_desired_amended w available_size override_size
  unfold measure_desired measure_desired_amended clampCode capAt
  cases w.width <;> cases w.height <;> simp [F.isNan]

/-- Witness for claim C1 at a concrete visible widget. -/
theorem claim_c1_witness :
    c1Widget.visibility = Visibility.Visible ∧
    (measure c1Widget c1Avail c1Override).desired_size =
      measure_desired_amended c1Widget c1Avail c1Override :=
  ⟨rfl, claim_c1 c1Widget c1Avail c1Override rfl⟩

unseal Rat.add Rat.sub Rat.mul in
/-- Claim C4, counterexample: an explicit width of zero does not
override the arrange candidate — the candidate and the arranged actual
width stay 50, the rect width, not 0. -/
theorem claim_c4_counterexample :
    c4Widget.width = F.val 0 ∧
    (arrange_candidate c4Widget c4Rect).x ≠ c4Widget.width ∧
    (arrange c4Widget c4Rect (fun s => s)).actual_size.x ≠ c4Widget.width := by
  refine ⟨rfl, ?_, ?_⟩ <;> decide

/-- Claim C4 as amended: in measure's post-processing a NaN explicit
width/height is ignored (the computed value feeds the clamp) and every
non-NaN value overrides, the width before the x clamp and the height
after the y clamp; in arrange the explicit width/height overrides the
candidate only when strictly positive, so NaN, zero and negative values
are all ignored there. -/
theorem claim_c4 :
    (∀ w a ov, w.width = F.nan →
      (measure_desired w a ov).x =
        capAt ((clampCode ov.x w.min_size.x w.max_size.x).add (marginX w)) a.x) ∧
    (∀ w a ov q, w.width = F.val q →
      (measure_desired w a ov).x =
        capAt ((clampCode (F.val q) w.min_size.x w.max_size.x).add (marginX w)) a.x) ∧
    (∀ w a ov, w.height = F.nan →
      (measure_desired w a ov).y =
        capAt ((clampCode ov.y w.min_size.y w.max_size.y).add (marginY w)) a.y) ∧
    (∀ w a ov q, w.height = F.val q →
      (measure_desired w a ov).y = capAt ((F.val q).add (marginY w)) a.y) ∧
    (∀ w r, w.width = F.nan →
      (arrange_candidate w r).x = (arrange_size_no_override w r).x) ∧
    (∀ w r q, w.width = F.val q → q ≤ 0 →
      (arrange_candidate w r).x = (arrange_size_no_override w r).x) ∧
    (∀ w r q, w.width = F.val q → 0 < q → (arrange_candidate w r).x = F.val q) ∧
    (∀ w r, w.height = F.nan →
      (arrange_candidate w r).y = (arrange_size_no_override w r).y) ∧
    (∀ w r q, w.height = F.val q → q ≤ 0 →
      (arrange_candidate w r).y = (arrange_size_no_override w r).y) ∧
    (∀ w r q, w.height = F.val q → 0 < q → (arrange_candidate w r).y = F.val q) := by
  refine ⟨?_, ?_, ?_, ?_, ?_, ?_, ?_, ?_, ?_, ?_⟩
  · intro w a ov hw
    unfold measure_desired clampCode capAt
    simp [hw, F.isNan]
  · intro w a ov q hw
    unfold measure_desired clampCode capAt
    simp [hw, F.isNan]
  · intro w a ov hh
    unfold measure_desired clampCode capAt
    simp [hh, F.isNan]
  · intro w a ov q hh
    unfold measure_desired capAt
    simp [hh, F.isNan]
  · intro w r hw
    unfold arrange_candidate
    simp [hw, fgt]
  · intro w r q hw hq
    unfold arrange_candidate
    simp [hw, fgt, not_lt.mpr hq]
  · intro w r q hw hq
    unfold arrange_candidate
    simp [hw, fgt, hq]
  · intro w r hh
    unfold arrange_candidate
    simp [hh, fgt]
  · intro w r q hh hq
    unfold arrange_candidate
    simp [hh, fgt, not_lt.mpr hq]
  · intro w r q hh hq
    unfold arrange_candidate
    simp [hh, fgt, hq]

/-- Witness for claim C4: the explicit zero width does override in the
measure post-processing. -/
theorem claim_c4_witness :
    c4Widget.width = F.val 0 ∧
    (measure_desired c4Widget c1Avail c1Override).x =
      capAt ((clampCode (F.val 0) c4Widget.min_size.x c4Widget.max_size.x).add
        (marginX c4Widget)) c1Avail.x :=
  ⟨rfl, claim_c4.2.1 c4Widget c1Avail c1Override 0 rfl⟩

/-- Claim C7, counterexample: capturing the null handle succeeds and yet
does not block a further capture, refuting that every successful
capture blocks all later ones. -/
theorem claim_c7_counterexample :
    (capture_mouse init_ui Handle.NONE).1 = true ∧
    (capture_mouse (capture_mouse init_ui Handle.NONE).2 ⟨0, 1⟩).1 = true ∧
    (⟨0, 1⟩ : Handle) ≠ Handle.NONE := by
  refine ⟨rfl, rfl, ?_⟩
  decide

/-- Claim C7 as amended: while the captured handle is valid, hit_test
answers it for every point; capture_mouse answers true exactly when no
capture is held and stores its argument, blocking all further captures
whenever the handle captured is non-null; release_mouse_capture resets
the captured node to the null handle, after which hit_test is the
geometric pick again. -/
theorem claim_c7 :
    (∀ fuel ui pt, ui.nodes.is_valid_handle ui.captured_node = true →
      hit_test fuel ui pt = some ui.captured_node) ∧
    (∀ ui h, (capture_mouse ui h).1 = true ↔ ui.captured_node = Handle.NONE) ∧
    (∀ ui h, (capture_mouse ui h).1 = true → (capture_mouse ui h).2.captured_node = h) ∧
    (∀ ui h h2, h ≠ Handle.NONE → ui.captured_node = Handle.NONE →
      (capture_mouse (capture_mouse ui h).2 h2).1 = false) ∧
    (∀ ui, (release_mouse_capture ui).captured_node = Handle.NONE) ∧
    (∀ fuel ui pt, hit_test fuel (release_mouse_capture ui) pt =
      Option.map Prod.fst (pick_node fuel (release_mouse_capture ui)
        (release_mouse_capture ui).root_canvas pt 0)) := by
  refine ⟨?_, ?_, ?_, ?_, ?_, ?_⟩
  · intro fuel ui pt h
    unfold hit_test
    rw [if_pos h]
  · intro ui h
    unfold capture_mouse Handle.is_none
    by_cases hc : ui.captured_node = Handle.NONE <;> simp [hc]
  · intro ui h hcap
    unfold capture_mouse Handle.is_none at hcap ⊢
    by_cases hc : ui.captured_node = Handle.NONE
    · simp [hc]
    · simp [hc] at hcap
  · intro ui h h2 hne hc
    unfold capture_mouse Handle.is_none
    simp [hc, hne]
  · intro ui
    rfl
  · intro fuel ui pt
    unfold hit_test
    rw [if_neg]
    simp [release_mouse_capture, pool_valid_none]

/-- Witness for claim C7 at the concrete captured interface. -/
theorem claim_c7_witness :
    capturedUI.nodes.is_valid_handle capturedUI.captured_node = true ∧
    hit_test 3 capturedUI Vec2.ZERO = some capturedUI.captured_node :=
  ⟨rfl, claim_c7.1 3 capturedUI Vec2.ZERO rfl⟩

/-- Claim C10: capture_mouse answers true and stores its argument
exactly when no capture is held, regardless of the argument's validity;
the null handle is never valid in the arena, so capturing it leaves
hit_test running the geometric pick. -/
theorem claim_c10 :
    (∀ ui h, (capture_mouse ui h).1 = true ↔ ui.captured_node = Handle.NONE) ∧
    (∀ ui h, ui.captured_node = Handle.NONE →
      (capture_mouse ui h).2.captured_node = h) ∧
    (∀ (p : Pool Widget), p.is_valid_handle Handle.NONE = false) ∧
    (∀ fuel ui pt, ui.captured_node = Handle.NONE →
      hit_test fuel ((capture_mouse ui Handle.NONE).2) pt =
        Option.map Prod.fst (pick_node fuel ((capture_mouse ui Handle.NONE).2)
          ((capture_mouse ui Handle.NONE).2).root_canvas pt 0)) := by
  refine ⟨?_, ?_, ?_, ?_⟩
  · intro ui h
    unfold capture_mouse Handle.is_none
    by_cases hc : ui.captured_node = Handle.NONE <;> simp [hc]
  · intro ui h hc
    unfold capture_mouse Handle.is_none
    simp [hc]
  · intro p
    exact pool_valid_none p
  · intro fuel ui pt hc
    unfold capture_mouse Handle.is_none
    simp only [hc]
    unfold hit_test
    rw [if_neg]
    simp [pool_valid_none]

/-- Witness for claim C10 at the fresh interface and an arbitrary stale
handle. -/
theorem claim_c10_witness :
    init_ui.captured_node = Handle.NONE ∧
    (capture_mouse init_ui ⟨5, 7⟩).2.captured_node = ⟨5, 7⟩ :=
  ⟨rfl, claim_c10.2.1 init_ui ⟨5, 7⟩ rfl⟩

mutual

/-- Every parent/child pair produced by the update pass satisfies the
propagation relation, whatever parent context the pass starts from. -/
theorem update_edges_ok : ∀ (pinfo : Option (Vec2 × Bool)) (t : WTree),
    ∀ pr ∈ (update_node_tree pinfo t).edges, edgeProp pr.1 pr.2
  | pinfo, WTree.node w cs => by
    intro pr hpr
    simp only [update_node_tree, WTree.edges] at hpr
    exact update_edges_from_ok _ _ cs rfl rfl pr hpr
termination_by pinfo t => sizeOf t

/-- Edges contributed by an updated child list under a parent widget
whose stored screen position and global visibility are the context the
children were updated with. -/
theorem update_edges_from_ok : ∀ (p : Vec2 × Bool) (w2 : Widget) (cs : List WTree),
    w2.screen_position = p.1 → w2.global_visibility = p.2 →
    ∀ pr ∈ edges_from w2 (update_children p cs), edgeProp pr.1 pr.2
  | p, w2, [], _, _ => by
    intro pr hpr
    simp only [update_children, edges_from] at hpr
    exact absurd hpr (List.not_mem_nil pr)
  | p, w2, c :: rest, h1, h2 => by
    intro pr hpr
    simp only [update_children, edges_from] at hpr
    rcases List.mem_cons.1 hpr with hhead | htail
    · subst hhead
      cases c with
      | node wc ccs =>
        refine ⟨?_, ?_⟩
        · simp only [update_node_tree, WTree.widget0]
          rw [h2]
        · simp only [update_node_tree, WTree.widget0]
          rw [h1]
    · rcases List.mem_append.1 htail with hc | hrest
      · exact update_edges_ok (some p) c pr hc
      · exact update_edges_from_ok p w2 rest h1 h2 pr hrest
termination_by p w2 cs => sizeOf cs

end

/-- Claim C2: after the update pass the root's global visibility is its
own local Visible test (implicit parent visibility true) and its screen
position is its local position, and every parent/child pair satisfies
child global visibility = local Visible AND parent global visibility,
child screen position = child local position + parent screen position. -/
theorem claim_c2 : ∀ t : WTree,
    (update_node_tree none t).widget0.global_visibility =
      decide (t.widget0.visibility = Visibility.Visible) ∧
    (update_node_tree none t).widget0.screen_position =
      t.widget0.actual_local_position ∧
    ∀ pr ∈ (update_node_tree none t).edges, edgeProp pr.1 pr.2 := by
  intro t
  cases t with
  | node w cs =>
    refine ⟨?_, ?_, ?_⟩
    · simp only [update_node_tree, WTree.widget0]
      exact Bool.and_true _
    · simp only [update_node_tree, WTree.widget0]
    · intro pr hpr
      exact update_edges_ok none (WTree.node w cs) pr hpr

unseal Rat.add Rat.sub Rat.mul in
/-- Witness for claim C2 on a two-node tree of default widgets. -/
theorem claim_c2_witness :
    (({} : Widget), ({} : Widget)) ∈
      (update_node_tree none (WTree.node {} [WTree.node {} []])).edges ∧
    edgeProp {} {} :=
  ⟨by decide, (claim_c2 (WTree.node {} [WTree.node {} []])).2.2 ({}, {}) (by decide)⟩

/-- Soundness of the downward-search child loop, given soundness of the
per-child search. -/
theorem find_down_children_sound (ui : UserInterface) (func : Widget → Bool)
    (f : Handle → Option Handle)
    (hf : ∀ c r, f c = some r →
      r = Handle.NONE ∨ ∃ w, ui.nodes.borrow r = some w ∧ func w = true) :
    ∀ (cs : List Handle) (r : Handle), find_down_children f cs = some r →
      r = Handle.NONE ∨ ∃ w, ui.nodes.borrow r = some w ∧ func w = true := by
  intro cs
  induction cs with
  | nil =>
    intro r he
    rw [find_down_children] at he
    cases he
    exact Or.inl rfl
  | cons c rest ih =>
    intro r he
    rw [find_down_children] at he
    cases hc : f c with
    | none =>
      rw [hc] at he
      exact absurd he Option.noConfusion
    | some result =>
      rw [hc] at he
      simp only at he
      by_cases hs : result.is_some = true
      · rw [if_pos hs] at he
        cases he
        exact hf c r hc
      · rw [if_neg hs] at he
        exact ih r he

/-- A non-null handle answered by the downward search always denotes a
live node matching the criteria. -/
theorem find_down_sound : ∀ (fuel : Nat) (ui : UserInterface) (h : Handle)
    (func : Widget → Bool) (r : Handle),
    find_by_criteria_down fuel ui h func = some r →
    r = Handle.NONE ∨ ∃ w, ui.nodes.borrow r = some w ∧ func w = true := by
  intro fuel
  induction fuel with
  | zero =>
    intro ui h func r he
    rw [find_by_criteria_down] at he
    exact absurd he Option.noConfusion
  | succ fuel ih =>
    intro ui h func r he
    rw [find_by_criteria_down] at he
    cases hb : ui.nodes.borrow h with
    | none =>
      rw [hb] at he
      exact absurd he Option.noConfusion
    | some w =>
      rw [hb] at he
      simp only at he
      by_cases hfw : func w = true
      · rw [if_pos hfw] at he
        cases he
        exact Or.inr ⟨w, hb, hfw⟩
      · rw [if_neg hfw] at he
        exact find_down_children_sound ui func _
          (fun c r2 hc => ih ui c func r2 hc) w.children r he

/-- A handle answered by the upward search always denotes a live node
matching the criteria: the search can never answer the null handle for
a miss, because borrowing the null parent of the root fails first. -/
theorem find_up_sound : ∀ (fuel : Nat) (ui : UserInterface) (h : Handle)
    (func : Widget → Bool) (r : Handle),
    find_by_criteria_up fuel ui h func = some r →
    ∃ w, ui.nodes.borrow r = some w ∧ func w = true := by
  intro fuel
  induction fuel with
  | zero =>
    intro ui h func r he
    rw [find_by_criteria_up] at he
    exact absurd he Option.noConfusion
  | succ fuel ih =>
    intro ui h func r he
    rw [find_by_criteria_up] at he
    cases hb : ui.nodes.borrow h with
    | none =>
      rw [hb] at he
      exact absurd he Option.noConfusion
    | some w =>
      rw [hb] at he
      simp only at he
      by_cases hf : func w = true
      · rw [if_pos hf] at he
        cases he
        exact ⟨w, hb, hf⟩
      · rw [if_neg hf] at he
        exact ih ui w.parent func r he

/-- Claim C3, counterexample: on the fresh single-node interface with a
criteria matching nothing, the upward search does not return the null
handle — it aborts (borrow of the null parent handle of the root). -/
theorem claim_c3_counterexample :
    find_by_criteria_up 5 init_ui ⟨0, 1⟩ (fun x => false) ≠ some Handle.NONE ∧
    find_by_criteria_up 5 init_ui ⟨0, 1⟩ (fun x => false) = none := by
  constructor
  · decide
  · decide

/-- Claim C3 as amended: the downward search answers a non-null handle
only for a live matching node, and therefore answers the null handle
whenever the subtree holds no match; the upward search likewise answers
only live matching nodes, and on a miss it aborts borrowing the null
parent handle of the root instead of returning the null handle. -/
theorem claim_c3 :
    (∀ (fuel : Nat) (ui : UserInterface) (h : Handle) (func : Widget → Bool) (r : Handle),
      find_by_criteria_down fuel ui h func = some r →
      r = Handle.NONE ∨ ∃ w, ui.nodes.borrow r = some w ∧ func w = true) ∧
    (∀ (fuel : Nat) (ui : UserInterface) (h : Handle) (func : Widget → Bool) (r : Handle),
      find_by_criteria_up fuel ui h func = some r →
      ∃ w, ui.nodes.borrow r = some w ∧ func w = true) :=
  ⟨fun fuel ui h func r => find_down_sound fuel ui h func r,
   fun fuel ui h func r => find_up_sound fuel ui h func r⟩

/-- Witness for claim C3: the downward search over the fresh interface
with an unsatisfiable criteria computes the null handle. -/
theorem claim_c3_witness :
    find_by_criteria_down 5 init_ui ⟨0, 1⟩ (fun x => false) = some Handle.NONE ∧
    (Handle.NONE = Handle.NONE ∨
      ∃ w, init_ui.nodes.borrow Handle.NONE = some w ∧ (fun x => false) w = true) :=
  ⟨rfl, claim_c3.1 5 init_ui ⟨0, 1⟩ (fun x => false) Handle.NONE rfl⟩

/-- Characterization of an unclipped result: the node is live and
globally visible, one of its own Clip commands contains the point, and
when it has a parent the parent is recursively unclipped. -/
theorem is_node_clipped_false : ∀ (fuel : Nat) (ui : UserInterface) (h : Handle) (pt : Vec2),
    is_node_clipped (fuel + 1) ui h pt = some false →
    ∃ w, ui.nodes.borrow h = some w ∧ w.global_visibility = true ∧
      hasClipContaining ui w pt = true ∧
      (w.parent.is_none = false → is_node_clipped fuel ui w.parent pt = some false) := by
  intro fuel ui h pt he
  rw [is_node_clipped] at he
  cases hb : ui.nodes.borrow h with
  | none =>
    rw [hb] at he
    exact absurd he Option.noConfusion
  | some w =>
    rw [hb] at he
    simp only at he
    by_cases hv : w.global_visibility = false
    · rw [if_pos hv] at he
      exact absurd (Option.some.inj he) Bool.noConfusion
    · rw [if_neg hv] at he
      have hvt : w.global_visibility = true := by
        cases hg : w.global_visibility
        · exact absurd hg hv
        · rfl
      by_cases hcond : w.parent.is_none = false ∧ (!hasClipContaining ui w pt) = false
      · rw [if_pos hcond] at he
        have hclip : hasClipContaining ui w pt = true := by
          cases hc2 : hasClipContaining ui w pt
          · rw [hc2] at hcond
            exact absurd hcond.2 (by decide)
          · rfl
        exact ⟨w, rfl, hvt, hclip, fun _ => he⟩
      · rw [if_neg hcond] at he
        have hclip0 : (!hasClipContaining ui w pt) = false := Option.some.inj he
        have hclip : hasClipContaining ui w pt = true := by
          cases hc2 : hasClipContaining ui w pt
          · rw [hc2] at hclip0
            exact absurd hclip0 (by decide)
          · rfl
        refine ⟨w, rfl, hvt, hclip, ?_⟩
        intro hp
        exact absurd ⟨hp, hclip0⟩ hcond

/-- A node none of whose own containing commands is a Clip command is
always reported clipped. -/
theorem is_node_clipped_no_clip : ∀ (fuel : Nat) (ui : UserInterface) (h : Handle)
    (pt : Vec2) (w : Widget), ui.nodes.borrow h = some w →
    hasClipContaining ui w pt = false →
    is_node_clipped (fuel + 1) ui h pt = some true := by
  intro fuel ui h pt w hb hnc
  rw [is_node_clipped]
  rw [hb]
  simp only
  by_cases hv : w.global_visibility = false
  · rw [if_pos hv]
  · rw [if_neg hv]
    rw [if_neg]
    · rw [hnc]
      rfl
    · intro hcond
      rw [hnc] at hcond
      exact absurd hcond.2 (by decide)

/-- Claim C6: a node is reported to contain a point only when it is
globally visible, the point is inside one of its own Clip commands, its
parent chain is recursively unclipped, and the point is inside one of
its own Geometry commands; and a node with no Clip command among its
recorded command indices never contains any point. -/
theorem claim_c6 :
    (∀ (fuel : Nat) (ui : UserInterface) (h : Handle) (pt : Vec2),
      is_node_contains_point (fuel + 1) ui h pt = some true →
      ∃ w, ui.nodes.borrow h = some w ∧ w.global_visibility = true ∧
        hasGeometryContaining ui w pt = true ∧
        hasClipContaining ui w pt = true ∧
        (w.parent.is_none = false → is_node_clipped fuel ui w.parent pt = some false)) ∧
    (∀ (fuel : Nat) (ui : UserInterface) (h : Handle) (pt : Vec2) (w : Widget),
      ui.nodes.borrow h = some w →
      (∀ i ∈ w.command_indices, ∀ c, ui.commands[i]? = some c →
        c.kind ≠ CommandKind.Clip) →
      is_node_contains_point fuel ui h pt ≠ some true) := by
  constructor
  · intro fuel ui h pt he
    rw [is_node_contains_point] at he
    cases hb : ui.nodes.borrow h with
    | none =>
      rw [hb] at he
      exact absurd he Option.noConfusion
    | some w =>
      rw [hb] at he
      simp only at he
      by_cases hv : w.global_visibility = false
      · rw [if_pos hv] at he
        exact absurd (Option.some.inj he) Bool.noConfusion
      · rw [if_neg hv] at he
        have hvt : w.global_visibility = true := by
          cases hg : w.global_visibility
          · exact absurd hg hv
          · rfl
        cases hcl : is_node_clipped (fuel + 1) ui h pt with
        | none =>
          rw [hcl] at he
          exact absurd he Option.noConfusion
        | some clipped =>
          rw [hcl] at he
          simp only at he
          by_cases hc : clipped = false
          · rw [if_pos hc] at he
            subst hc
            obtain ⟨w2, hb2, _, hclip, hpar⟩ := is_node_clipped_false fuel ui h pt hcl
            have hw : w = w2 := by
              rw [hb] at hb2
              exact Option.some.inj hb2
            subst hw
            exact ⟨w, rfl, hvt, Option.some.inj he, hclip, hpar⟩
          · rw [if_neg hc] at he
            exact absurd (Option.some.inj he) Bool.noConfusion
  · intro fuel ui h pt w hb hnone
    have hnc : hasClipContaining ui w pt = false := by
      rw [hasClipContaining]
      rw [List.any_eq_false]
      intro i hi
      cases hcmd : ui.commands[i]? with
      | none => simp
      | some c =>
        simp only
        rw [decide_eq_false (hnone i hi c hcmd)]
        simp
    intro he
    rw [is_node_contains_point] at he
    rw [hb] at he
    simp only at he
    by_cases hv : w.global_visibility = false
    · rw [if_pos hv] at he
      exact absurd (Option.some.inj he) Bool.noConfusion
    · rw [if_neg hv] at he
      cases fuel with
      | zero =>
        rw [is_node_clipped] at he
        exact absurd he Option.noConfusion
      | succ fuel =>
        rw [is_node_clipped_no_clip fuel ui h pt w hb hnc] at he
        simp only at he
        rw [if_neg (by decide : ¬((true : Bool) = false))] at he
        exact absurd (Option.some.inj he) Bool.noConfusion

unseal Rat.add Rat.sub Rat.mul in
/-- Witness for claim C6: the grandchild of pickUI contains the probe
point, and the theorem recovers its visibility, geometry, clip and
parent facts. -/
theorem claim_c6_witness :
    is_node_contains_point 5 pickUI pickA1 pickPt = some true ∧
    (∃ w, pickUI.nodes.borrow pickA1 = some w ∧ w.global_visibility = true ∧
      hasGeometryContaining pickUI w pickPt = true ∧
      hasClipContaining pickUI w pickPt = true ∧
      (w.parent.is_none = false →
        is_node_clipped 4 pickUI w.parent pickPt = some false)) :=
  ⟨rfl, claim_c6.1 4 pickUI pickA1 pickPt rfl⟩

/-- The mutable level counter never decreases across the child loop of
pick_node. -/
theorem pick_children_mono (f : Handle → Int → Option (Handle × Int))
    (hf : ∀ c lv r lv2, f c lv = some (r, lv2) → lv ≤ lv2) :
    ∀ (cs : List Handle) (picked : Handle) (topmost level : Int) (r : Handle) (lv2 : Int),
      pick_children f cs picked topmost level = some (r, lv2) → level ≤ lv2 := by
  intro cs
  induction cs with
  | nil =>
    intro picked topmost level r lv2 he
    rw [pick_children] at he
    cases he
    exact le_refl _
  | cons c rest ih =>
    intro picked topmost level r lv2 he
    rw [pick_children] at he
    cases hc : f c (level + 1) with
    | none =>
      rw [hc] at he
      exact absurd he Option.noConfusion
    | some pr =>
      rw [hc] at he
      obtain ⟨pc, lv1⟩ := pr
      simp only at he
      have h1 : level + 1 ≤ lv1 := hf c (level + 1) pc lv1 hc
      by_cases hcond : pc.is_none = false ∧ topmost < lv1
      · rw [if_pos hcond] at he
        have h2 := ih pc lv1 lv1 r lv2 he
        omega
      · rw [if_neg hcond] at he
        have h2 := ih picked topmost lv1 r lv2 he
        omega

/-- The mutable level counter never decreases across pick_node. -/
theorem pick_node_mono : ∀ (fuel : Nat) (ui : UserInterface) (h : Handle) (pt : Vec2)
    (level : Int) (r : Handle) (lv2 : Int),
    pick_node fuel ui h pt level = some (r, lv2) → level ≤ lv2 := by
  intro fuel
  induction fuel with
  | zero =>
    intro ui h pt level r lv2 he
    rw [pick_node] at he
    exact absurd he Option.noConfusion
  | succ fuel ih =>
    intro ui h pt level r lv2 he
    rw [pick_node] at he
    cases hb : ui.nodes.borrow h with
    | none =>
      rw [hb] at he
      exact absurd he Option.noConfusion
    | some w =>
      rw [hb] at he
      simp only at he
      by_cases hh : w.is_hit_test_visible = false
      · rw [if_pos hh] at he
        cases he
        exact le_refl _
      · rw [if_neg hh] at he
        cases hcp : is_node_contains_point fuel ui h pt with
        | none =>
          rw [hcp] at he
          exact absurd he Option.noConfusion
        | some b =>
          rw [hcp] at he
          simp only at he
          exact pick_children_mono _ (fun c lv r2 lv3 hcall => ih ui c pt lv r2 lv3 hcall)
            w.children _ _ level r lv2 he

/-- Because the counter is globally increasing, the level test in the
child loop always passes for a successful non-null child pick: the loop
reduces to keeping the last successful child pick. -/
theorem pick_children_simple (fuel : Nat) (ui : UserInterface) (pt : Vec2)
    (hnode : ∀ (c : Handle) (lv : Int), 0 ≤ lv →
      Option.map Prod.fst (pick_node fuel ui c pt lv) = pick_simple fuel ui c pt) :
    ∀ (cs : List Handle) (picked : Handle) (topmost level : Int),
      0 ≤ level → topmost ≤ level →
      Option.map Prod.fst
        (pick_children (fun c lv => pick_node fuel ui c pt lv) cs picked topmost level) =
      pick_simple_children (fun c => pick_simple fuel ui c pt) cs picked := by
  intro cs
  induction cs with
  | nil =>
    intro picked topmost level h0 ht
    rw [pick_children, pick_simple_children]
    rfl
  | cons c rest ih =>
    intro picked topmost level h0 ht
    rw [pick_children, pick_simple_children]
    cases hc : pick_node fuel ui c pt (level + 1) with
    | none =>
      have hps : pick_simple fuel ui c pt = none := by
        rw [← hnode c (level + 1) (by omega), hc]
        rfl
      rw [hps]
      rfl
    | some pr =>
      obtain ⟨pc, lv1⟩ := pr
      have hps : pick_simple fuel ui c pt = some pc := by
        rw [← hnode c (level + 1) (by omega), hc]
        rfl
      have hlv1 : level + 1 ≤ lv1 := pick_node_mono fuel ui c pt (level + 1) pc lv1 hc
      rw [hps]
      simp only
      by_cases hpc : pc.is_none = false
      · rw [if_pos ⟨hpc, by omega⟩, if_pos hpc]
        exact ih pc lv1 lv1 (by omega) (le_refl _)
      · rw [if_neg (fun hcd => hpc hcd.1), if_neg hpc]
        exact ih picked topmost lv1 (by omega) (by omega)

/-- With a nonnegative starting counter, pick_node computes exactly the
reference semantics pick_simple (projecting away the counter). -/
theorem pick_node_simple : ∀ (fuel : Nat) (ui : UserInterface) (h : Handle) (pt : Vec2)
    (level : Int), 0 ≤ level →
    Option.map Prod.fst (pick_node fuel ui h pt level) = pick_simple fuel ui h pt := by
  intro fuel
  induction fuel with
  | zero =>
    intro ui h pt level hl
    rw [pick_node, pick_simple]
    rfl
  | succ fuel ih =>
    intro ui h pt level hl
    rw [pick_node, pick_simple]
    cases hb : ui.nodes.borrow h with
    | none => rfl
    | some w =>
      simp only
      by_cases hh : w.is_hit_test_visible = false
      · rw [if_pos hh, if_pos hh]
        rfl
      · rw [if_neg hh, if_neg hh]
        cases hcp : is_node_contains_point fuel ui h pt with
        | none => rfl
        | some b =>
          simp only
          cases b with
          | false =>
            exact pick_children_simple fuel ui pt (fun c lv hlv => ih ui c pt lv hlv)
              w.children Handle.NONE 0 level hl hl
          | true =>
            exact pick_children_simple fuel ui pt (fun c lv hlv => ih ui c pt lv hlv)
              w.children h level level hl (le_refl _)

unseal Rat.add Rat.sub Rat.mul in
/-- Claim C5, counterexample: in pickUI the grandchild (nesting depth
two) contains the probe point and is hit-test eligible, yet the pick
answers the later-visited depth-one child instead of the deepest
candidate: the claimed deepest-wins rule fails. -/
theorem claim_c5_counterexample :
    Option.map Prod.fst (pick_node 10 pickUI pickUI.root_canvas pickPt 0) = some pickB ∧
    pickB ≠ pickA1 ∧
    is_node_contains_point 5 pickUI pickA1 pickPt = some true ∧
    (∃ w, pickUI.nodes.borrow pickA1 = some w ∧ w.is_hit_test_visible = true) ∧
    (∃ wr, pickUI.nodes.borrow pickUI.root_canvas = some wr ∧
      wr.children = [⟨1, 1⟩, pickB]) ∧
    (∃ wa, pickUI.nodes.borrow ⟨1, 1⟩ = some wa ∧ wa.children = [pickA1]) := by
  refine ⟨rfl, by decide, rfl, ⟨_, rfl, rfl⟩, ⟨_, rfl, rfl⟩, ⟨_, rfl, rfl⟩⟩

/-- Claim C5 as amended: starting from a nonnegative level counter,
pick_node implements last-successful-child-wins — the result is the
pick of the last child (in child-list order) whose subtree pick
succeeds, falling back to the node itself when it contains the point —
because the level comparison uses the globally increasing counter and
therefore always passes; and a node whose hit-test flag is cleared
prunes its entire subtree, answering the null handle. -/
theorem claim_c5 :
    (∀ (fuel : Nat) (ui : UserInterface) (h : Handle) (pt : Vec2) (level : Int),
      0 ≤ level →
      Option.map Prod.fst (pick_node fuel ui h pt level) = pick_simple fuel ui h pt) ∧
    (∀ (fuel : Nat) (ui : UserInterface) (h : Handle) (pt : Vec2) (level : Int)
      (w : Widget), ui.nodes.borrow h = some w → w.is_hit_test_visible = false →
      pick_node (fuel + 1) ui h pt level = some (Handle.NONE, level)) := by
  constructor
  · exact pick_node_simple
  · intro fuel ui h pt level w hb hh
    rw [pick_node]
    rw [hb]
    simp only
    rw [if_pos hh]

unseal Rat.add Rat.sub Rat.mul in
/-- Witness for claim C5 at the concrete picking interface. -/
theorem claim_c5_witness :
    (0 : Int) ≤ 0 ∧
    Option.map Prod.fst (pick_node 10 pickUI pickUI.root_canvas pickPt 0) =
      pick_simple 10 pickUI pickUI.root_canvas pickPt :=
  ⟨le_refl 0, claim_c5.1 10 pickUI pickUI.root_canvas pickPt 0 (le_refl 0)⟩

/-- Decomposition of a successful borrow: the record at the handle's
index carries the handle's generation and the payload, the generation is
nonzero and the index is in range. -/
theorem pool_borrow_elim {α : Type} (p : Pool α) (h : Handle) (a : α)
    (hb : p.borrow h = some a) :
    p.records[h.index]? = some ⟨h.generation, some a⟩ ∧ h.generation ≠ 0 ∧
      h.index < p.records.length := by
  unfold Pool.borrow at hb
  cases hr : p.records[h.index]? with
  | none =>
    rw [hr] at hb
    exact absurd hb Option.noConfusion
  | some r =>
    rw [hr] at hb
    simp only at hb
    by_cases hcond : r.generation = h.generation ∧ h.generation ≠ 0
    · rw [if_pos hcond] at hb
      have hlt : h.index < p.records.length := (List.getElem?_eq_some.1 hr).1
      refine ⟨?_, hcond.2, hlt⟩
      cases r with
      | mk g pl =>
        simp only at hb hcond
        rw [hcond.1, hb]
    · rw [if_neg hcond] at hb
      exact absurd hb Option.noConfusion

/-- Mutating through a live handle yields exactly the pool with that
slot's payload replaced. -/
theorem pool_modifyAt_eq {α : Type} (p : Pool α) (h : Handle) (f : α → α) (a : α)
    (hb : p.borrow h = some a) :
    p.modifyAt h f =
      some ⟨p.records.set h.index ⟨h.generation, some (f a)⟩⟩ := by
  unfold Pool.modifyAt
  rw [hb]

/-- Borrowing the mutated handle sees the new payload. -/
theorem pool_borrow_set_same {α : Type} (p : Pool α) (h : Handle) (b : α) (a : α)
    (hb : p.borrow h = some a) :
    (⟨p.records.set h.index ⟨h.generation, some b⟩⟩ : Pool α).borrow h = some b := by
  obtain ⟨hrec, hgen, hlt⟩ := pool_borrow_elim p h a hb
  unfold Pool.borrow
  rw [List.getElem?_set_eq_of_lt _ hlt]
  simp [hgen]

/-- Borrowing any other handle is unchanged by the mutation: a handle
with the same index but a different generation failed to borrow before
and still fails. -/
theorem pool_borrow_set_other {α : Type} (p : Pool α) (h h2 : Handle) (b : α) (a : α)
    (hb : p.borrow h = some a) (hne : h2 ≠ h) :
    (⟨p.records.set h.index ⟨h.generation, some b⟩⟩ : Pool α).borrow h2 = p.borrow h2 := by
  obtain ⟨hrec, hgen, hlt⟩ := pool_borrow_elim p h a hb
  unfold Pool.borrow
  by_cases hidx : h.index = h2.index
  · have hgne : h2.generation ≠ h.generation := by
      intro hg
      apply hne
      cases h2
      cases h
      simp only at hidx hg
      simp [hidx, hg]
    have h2rec : p.records[h2.index]? = some ⟨h.generation, some a⟩ := by
      rw [← hidx]
      exact hrec
    have hset : (p.records.set h.index ⟨h.generation, some b⟩)[h2.index]? =
        some ⟨h.generation, some b⟩ := by
      rw [← hidx]
      exact List.getElem?_set_eq_of_lt _ hlt
    rw [hset, h2rec]
    simp only
    rw [if_neg (fun hc => hgne hc.1.symm), if_neg (fun hc => hgne hc.1.symm)]
  · rw [List.getElem?_set_ne hidx]

/-- A non-null handle tests is_none false. -/
theorem handle_is_none_false {h : Handle} (hne : h ≠ Handle.NONE) : h.is_none = false := by
  unfold Handle.is_none
  exact decide_eq_false hne

/-- A non-null handle tests is_some true. -/
theorem handle_is_some_true {h : Handle} (hne : h ≠ Handle.NONE) : h.is_some = true := by
  unfold Handle.is_some
  rw [handle_is_none_false hne]
  rfl

/-- The null handle tests is_some false. -/
theorem handle_none_is_some : Handle.NONE.is_some = false := rfl

/-- The leave part of a cursor move does nothing when there was no
previously picked node. -/
theorem cursor_leave_none (ui : UserInterface)
    (hprev : ui.prev_picked_node = Handle.NONE) :
    cursor_leave_step ui = some ui := by
  unfold cursor_leave_step
  by_cases hne : ui.picked_node ≠ ui.prev_picked_node
  · rw [if_pos hne, hprev, handle_none_is_some]
    rw [if_neg (by decide : ¬(false = true))]
  · rw [if_neg hne]

/-- The leave part of a cursor move, when the previously picked node is
live, mouse-over and different from the new pick: its flag is cleared
and a MouseLeave sourced at it is enqueued. -/
theorem cursor_leave_fires (ui : UserInterface) (P : Handle) (wP : Widget)
    (hprev : ui.prev_picked_node = P) (hPn : P ≠ Handle.NONE)
    (hpk : ui.picked_node ≠ P)
    (hbP : ui.nodes.borrow P = some wP) (hov : wP.is_mouse_over = true) :
    cursor_leave_step ui = some { ui with
      nodes := ⟨ui.nodes.records.set P.index
        ⟨P.generation, some { wP with is_mouse_over := false }⟩⟩,
      events := ui.events ++ [⟨false, UIEventKind.mouseLeave, Handle.NONE, P⟩] } := by
  unfold cursor_leave_step
  rw [hprev]
  rw [if_pos hpk]
  rw [handle_is_some_true hPn]
  rw [if_pos rfl]
  rw [hbP]
  dsimp only
  rw [hov]
  rw [if_pos rfl]
  rw [pool_modifyAt_eq ui.nodes P _ wP hbP]
  unfold push_event
  rfl

/-- The enter/move part of a cursor move, when the picked node is live
and not yet mouse-over: its flag is set and MouseEnter then MouseMove
sourced at it are enqueued, and the event counts as processed. -/
theorem cursor_enter_move_fires (ui : UserInterface) (X : Handle) (wX : Widget)
    (hpk : ui.picked_node = X) (hXn : X ≠ Handle.NONE)
    (hbX : ui.nodes.borrow X = some wX) (hov : wX.is_mouse_over = false) :
    cursor_enter_move_step ui = some ({ ui with
      nodes := ⟨ui.nodes.records.set X.index
        ⟨X.generation, some { wX with is_mouse_over := true }⟩⟩,
      events := (ui.events ++ [⟨false, UIEventKind.mouseEnter, Handle.NONE, X⟩]) ++
        [⟨false, UIEventKind.mouseMove ui.mouse_position, Handle.NONE, X⟩] }, true) := by
  unfold cursor_enter_move_step
  rw [hpk]
  rw [handle_is_none_false hXn]
  rw [if_pos rfl]
  rw [hbX]
  dsimp only
  rw [hov]
  rw [if_pos rfl]
  rw [pool_modifyAt_eq ui.nodes X _ wX hbX]
  rw [Option.map_some']
  dsimp only
  rw [if_pos rfl]
  unfold push_event
  rfl

/-- A boolean that is not true is false. -/
theorem bool_eq_false_of_not_true {b : Bool} (h : ¬ b = true) : b = false := by
  cases hb : b
  · rfl
  · exact absurd hb h

/-- A boolean that is not false is true. -/
theorem bool_eq_true_of_not_false {b : Bool} (h : ¬ b = false) : b = true := by
  cases hb : b
  · exact absurd hb h
  · rfl

/-- Case analysis of the leave part: routing fields and the borrow of
the picked node are untouched, and a MouseLeave is appended exactly
when the previous node is live, mouse-over and distinct from the pick. -/
theorem cursor_leave_cases (ui r : UserInterface) (he : cursor_leave_step ui = some r) :
    r.picked_node = ui.picked_node ∧ r.prev_picked_node = ui.prev_picked_node ∧
    r.mouse_position = ui.mouse_position ∧
    r.nodes.borrow ui.picked_node = ui.nodes.borrow ui.picked_node ∧
    (r.events = ui.events ∨
      (∃ wP, ui.nodes.borrow ui.prev_picked_node = some wP ∧ wP.is_mouse_over = true ∧
        r.events = ui.events ++
          [⟨false, UIEventKind.mouseLeave, Handle.NONE, ui.prev_picked_node⟩])) := by
  unfold cursor_leave_step at he
  by_cases hne : ui.picked_node ≠ ui.prev_picked_node
  · rw [if_pos hne] at he
    by_cases hsome : ui.prev_picked_node.is_some = true
    · rw [if_pos hsome] at he
      cases hbP : ui.nodes.borrow ui.prev_picked_node with
      | none =>
        rw [hbP] at he
        exact absurd he Option.noConfusion
      | some pw =>
        rw [hbP] at he
        dsimp only at he
        by_cases hov : pw.is_mouse_over = true
        · rw [hov] at he
          rw [if_pos rfl] at he
          rw [pool_modifyAt_eq ui.nodes ui.prev_picked_node _ pw hbP] at he
          unfold push_event at he
          cases he
          refine ⟨rfl, rfl, rfl, ?_, Or.inr ⟨pw, rfl, hov, rfl⟩⟩
          exact pool_borrow_set_other ui.nodes ui.prev_picked_node ui.picked_node _ pw hbP hne
        · rw [bool_eq_false_of_not_true hov] at he
          rw [if_neg (by decide : ¬(false = true))] at he
          cases he
          exact ⟨rfl, rfl, rfl, rfl, Or.inl rfl⟩
    · rw [if_neg hsome] at he
      cases he
      exact ⟨rfl, rfl, rfl, rfl, Or.inl rfl⟩
  · rw [if_neg hne] at he
    cases he
    exact ⟨rfl, rfl, rfl, rfl, Or.inl rfl⟩

/-- Case analysis of the enter/move part: routing fields are untouched
and the appended events are a MouseEnter and/or a MouseMove, the
MouseEnter only when the picked node is live with its mouse-over flag
clear. -/
theorem cursor_enter_move_cases (ui r : UserInterface) (b : Bool)
    (he : cursor_enter_move_step ui = some (r, b)) :
    r.prev_picked_node = ui.prev_picked_node ∧ r.picked_node = ui.picked_node ∧
    ∃ rest, r.events = ui.events ++ rest ∧
      (∀ e ∈ rest, e.kind = UIEventKind.mouseEnter ∨
        e.kind = UIEventKind.mouseMove ui.mouse_position) ∧
      (∀ e ∈ rest, e.kind = UIEventKind.mouseEnter →
        ∃ w, ui.nodes.borrow ui.picked_node = some w ∧ w.is_mouse_over = false) := by
  unfold cursor_enter_move_step at he
  by_cases hpk : ui.picked_node.is_none = false
  · rw [if_pos hpk] at he
    cases hbX : ui.nodes.borrow ui.picked_node with
    | none =>
      rw [hbX] at he
      exact absurd he Option.noConfusion
    | some pw =>
      rw [hbX] at he
      dsimp only at he
      by_cases hov : pw.is_mouse_over = false
      · rw [hov] at he
        rw [if_pos rfl] at he
        rw [pool_modifyAt_eq ui.nodes ui.picked_node _ pw hbX] at he
        rw [Option.map_some'] at he
        dsimp only at he
        rw [if_pos rfl] at he
        unfold push_event at he
        cases he
        refine ⟨rfl, rfl,
          [⟨false, UIEventKind.mouseEnter, Handle.NONE, ui.picked_node⟩,
           ⟨false, UIEventKind.mouseMove ui.mouse_position, Handle.NONE, ui.picked_node⟩],
          by simp, ?_, ?_⟩
        · intro e hmem
          rcases List.mem_cons.1 hmem with h1 | h2
          · subst h1
            exact Or.inl rfl
          · rcases List.mem_cons.1 h2 with h3 | h4
            · subst h3
              exact Or.inr rfl
            · exact absurd h4 (List.not_mem_nil e)
        · intro e hmem hkind
          exact ⟨pw, rfl, hov⟩
      · rw [bool_eq_true_of_not_false hov] at he
        rw [if_neg (by decide : ¬(true = false))] at he
        dsimp only at he
        unfold push_event at he
        cases he
        refine ⟨rfl, rfl,
          [⟨false, UIEventKind.mouseMove ui.mouse_position, Handle.NONE, ui.picked_node⟩],
          by simp, ?_, ?_⟩
        · intro e hmem
          rcases List.mem_cons.1 hmem with h1 | h2
          · subst h1
            exact Or.inr rfl
          · exact absurd h2 (List.not_mem_nil e)
        · intro e hmem hkind
          rcases List.mem_cons.1 hmem with h1 | h2
          · subst h1
            exact UIEventKind.noConfusion hkind
          · exact absurd h2 (List.not_mem_nil e)
  · rw [if_neg hpk] at he
    cases he
    exact ⟨rfl, rfl, [], by simp, by intro e hmem; exact absurd hmem (List.not_mem_nil e),
      by intro e hmem; exact absurd hmem (List.not_mem_nil e)⟩

/-- A full cursor-move event with no previously picked node: the new
pick X gets its mouse-over flag set and MouseEnter plus MouseMove are
enqueued; the pick is stored as both picked and previous node. -/
theorem cursor_move_no_prev (fuel : Nat) (ui : UserInterface) (pt : Vec2)
    (X : Handle) (wX : Widget)
    (hprev : ui.prev_picked_node = Handle.NONE)
    (hX : hit_test fuel { ui with mouse_position := pt } pt = some X)
    (hXn : X ≠ Handle.NONE)
    (hbX : ui.nodes.borrow X = some wX) (hovX : wX.is_mouse_over = false) :
    process_input_event fuel ui (WindowEvent.CursorMoved pt) =
      some (Prod.mk
        { ui with
          mouse_position := pt
          picked_node := X
          prev_picked_node := X
          nodes := ⟨ui.nodes.records.set X.index
            ⟨X.generation, some { wX with is_mouse_over := true }⟩⟩
          events := (ui.events ++ [⟨false, UIEventKind.mouseEnter, Handle.NONE, X⟩]) ++
            [⟨false, UIEventKind.mouseMove pt, Handle.NONE, X⟩] }
        true) := by
  unfold process_input_event
  dsimp only
  rw [hX]
  dsimp only
  rw [cursor_leave_none { ui with mouse_position := pt, picked_node := X }
    (by exact hprev)]
  dsimp only
  rw [cursor_enter_move_fires { ui with mouse_position := pt, picked_node := X }
    X wX rfl hXn (by exact hbX) hovX]

/-- A full cursor-move event whose previously picked node P is live and
mouse-over and whose new pick Y is a different live node not yet
mouse-over: P's flag is cleared with a MouseLeave, Y's flag is set with
a MouseEnter, and a MouseMove to Y follows. -/
theorem cursor_move_with_prev (fuel : Nat) (ui : UserInterface) (pt : Vec2)
    (Y P : Handle) (wP wY : Widget)
    (hprev : ui.prev_picked_node = P) (hPn : P ≠ Handle.NONE)
    (hY : hit_test fuel { ui with mouse_position := pt } pt = some Y)
    (hYn : Y ≠ Handle.NONE) (hYP : Y ≠ P)
    (hbP : ui.nodes.borrow P = some wP) (hovP : wP.is_mouse_over = true)
    (hbY : ui.nodes.borrow Y = some wY) (hovY : wY.is_mouse_over = false) :
    process_input_event fuel ui (WindowEvent.CursorMoved pt) =
      some (Prod.mk
        { ui with
          mouse_position := pt
          picked_node := Y
          prev_picked_node := Y
          nodes := ⟨(ui.nodes.records.set P.index
              ⟨P.generation, some { wP with is_mouse_over := false }⟩).set
            Y.index ⟨Y.generation, some { wY with is_mouse_over := true }⟩⟩
          events := ((ui.events ++ [⟨false, UIEventKind.mouseLeave, Handle.NONE, P⟩]) ++
            [⟨false, UIEventKind.mouseEnter, Handle.NONE, Y⟩]) ++
            [⟨false, UIEventKind.mouseMove pt, Handle.NONE, Y⟩] }
        true) := by
  unfold process_input_event
  dsimp only
  rw [hY]
  dsimp only
  rw [cursor_leave_fires { ui with mouse_position := pt, picked_node := Y }
    P wP (by exact hprev) hPn (by exact hYP) (by exact hbP) hovP]
  dsimp only
  rw [cursor_enter_move_fires
    { ui with
      mouse_position := pt
      picked_node := Y
      nodes := ⟨ui.nodes.records.set P.index
        ⟨P.generation, some { wP with is_mouse_over := false }⟩⟩
      events := ui.events ++ [⟨false, UIEventKind.mouseLeave, Handle.NONE, P⟩] }
    Y wY rfl hYn
    (by
      show (⟨ui.nodes.records.set P.index
        ⟨P.generation, some { wP with is_mouse_over := false }⟩⟩ : Pool Widget).borrow Y =
          some wY
      rw [pool_borrow_set_other ui.nodes P Y _ wP hbP hYP]
      exact hbY) hovY]

/-- Claim C8: two consecutive cursor moves that pick first X (starting
with no previously picked node and X not yet mouse-over) and then a
distinct Y (not yet mouse-over) enqueue exactly MouseEnter(X),
MouseMove(X), MouseLeave(X), MouseEnter(Y), MouseMove(Y), in order;
moreover for any cursor move, MouseLeave is enqueued only when the
previously picked node had its mouse-over flag set, and MouseEnter only
when the newly picked node did not. -/
theorem claim_c8 :
    (∀ (fuel : Nat) (ui0 : UserInterface) (pt1 pt2 : Vec2) (X Y : Handle)
      (wX wY : Widget) (ui1 : UserInterface) (b1 : Bool) (ui2 : UserInterface) (b2 : Bool),
      ui0.prev_picked_node = Handle.NONE →
      X ≠ Handle.NONE → Y ≠ Handle.NONE → Y ≠ X →
      hit_test fuel { ui0 with mouse_position := pt1 } pt1 = some X →
      ui0.nodes.borrow X = some wX → wX.is_mouse_over = false →
      process_input_event fuel ui0 (WindowEvent.CursorMoved pt1) = some (ui1, b1) →
      hit_test fuel { ui1 with mouse_position := pt2 } pt2 = some Y →
      ui1.nodes.borrow Y = some wY → wY.is_mouse_over = false →
      process_input_event fuel ui1 (WindowEvent.CursorMoved pt2) = some (ui2, b2) →
      ui2.events = ui0.events ++
        [⟨false, UIEventKind.mouseEnter, Handle.NONE, X⟩,
         ⟨false, UIEventKind.mouseMove pt1, Handle.NONE, X⟩,
         ⟨false, UIEventKind.mouseLeave, Handle.NONE, X⟩,
         ⟨false, UIEventKind.mouseEnter, Handle.NONE, Y⟩,
         ⟨false, UIEventKind.mouseMove pt2, Handle.NONE, Y⟩] ∧
        b1 = true ∧ b2 = true) ∧
    (∀ (fuel : Nat) (ui : UserInterface) (pt : Vec2) (ui2 : UserInterface) (b : Bool),
      process_input_event fuel ui (WindowEvent.CursorMoved pt) = some (ui2, b) →
      (∀ w, ui.nodes.borrow ui.prev_picked_node = some w → w.is_mouse_over = false) →
      ∃ rest, ui2.events = ui.events ++ rest ∧
        ∀ e ∈ rest, e.kind ≠ UIEventKind.mouseLeave) ∧
    (∀ (fuel : Nat) (ui : UserInterface) (pt : Vec2) (X : Handle)
      (ui2 : UserInterface) (b : Bool),
      process_input_event fuel ui (WindowEvent.CursorMoved pt) = some (ui2, b) →
      hit_test fuel { ui with mouse_position := pt } pt = some X →
      (∀ w, ui.nodes.borrow X = some w → w.is_mouse_over = true) →
      ∃ rest, ui2.events = ui.events ++ rest ∧
        ∀ e ∈ rest, e.kind ≠ UIEventKind.mouseEnter) := by
  refine ⟨?_, ?_, ?_⟩
  · intro fuel ui0 pt1 pt2 X Y wX wY ui1 b1 ui2 b2 hprev hXn hYn hYX hX hbX hovX hp1 hY
      hbY hovY hp2
    have e1 := cursor_move_no_prev fuel ui0 pt1 X wX hprev hX hXn hbX hovX
    have hu1 := Option.some.inj (hp1.symm.trans e1)
    have hu1a := congrArg Prod.fst hu1
    have hb1a := congrArg Prod.snd hu1
    dsimp only at hu1a hb1a
    have hprev1 : ui1.prev_picked_node = X := by
      rw [hu1a]
    have hb1 : ui1.nodes.borrow X = some { wX with is_mouse_over := true } := by
      rw [hu1a]
      exact pool_borrow_set_same ui0.nodes X _ wX hbX
    have hev1 : ui1.events =
        (ui0.events ++ [⟨false, UIEventKind.mouseEnter, Handle.NONE, X⟩]) ++
          [⟨false, UIEventKind.mouseMove pt1, Handle.NONE, X⟩] := by
      rw [hu1a]
    have e2 := cursor_move_with_prev fuel ui1 pt2 Y X { wX with is_mouse_over := true }
      wY hprev1 hXn hY hYn hYX hb1 rfl hbY hovY
    have hu2 := Option.some.inj (hp2.symm.trans e2)
    have hu2a := congrArg Prod.fst hu2
    have hb2a := congrArg Prod.snd hu2
    dsimp only at hu2a hb2a
    refine ⟨?_, hb1a, hb2a⟩
    rw [hu2a]
    dsimp only
    rw [hev1]
    simp [List.append_assoc]
  · intro fuel ui pt ui2 b hp hno
    unfold process_input_event at hp
    dsimp only at hp
    cases hht : hit_test fuel { ui with mouse_position := pt } pt with
    | none =>
      rw [hht] at hp
      exact absurd hp Option.noConfusion
    | some picked =>
      rw [hht] at hp
      dsimp only at hp
      cases hcl : cursor_leave_step
          { ui with mouse_position := pt, picked_node := picked } with
      | none =>
        rw [hcl] at hp
        exact absurd hp Option.noConfusion
      | some r2 =>
        rw [hcl] at hp
        dsimp only at hp
        cases hem : cursor_enter_move_step r2 with
        | none =>
          rw [hem] at hp
          exact absurd hp Option.noConfusion
        | some pr =>
          obtain ⟨r3, b3⟩ := pr
          rw [hem] at hp
          dsimp only at hp
          cases hp
          obtain ⟨hpk2, hprev2, hmp2, hbtr, hev⟩ := cursor_leave_cases _ _ hcl
          obtain ⟨hprev3, hpk3, rest2, hev2, hkinds2, henters⟩ :=
            cursor_enter_move_cases _ _ _ hem
          cases hev with
          | inl heq =>
            refine ⟨rest2, ?_, ?_⟩
            · dsimp only
              rw [hev2, heq]
            · intro e hmem
              rcases hkinds2 e hmem with hk | hk
              · rw [hk]
                exact fun hc => UIEventKind.noConfusion hc
              · rw [hk]
                exact fun hc => UIEventKind.noConfusion hc
          | inr hfired =>
            obtain ⟨wP, hbP, hovP, _⟩ := hfired
            exact absurd (hno wP hbP) (by rw [hovP]; decide)
  · intro fuel ui pt X ui2 b hp hhit hflag
    unfold process_input_event at hp
    dsimp only at hp
    rw [hhit] at hp
    dsimp only at hp
    cases hcl : cursor_leave_step
        { ui with mouse_position := pt, picked_node := X } with
    | none =>
      rw [hcl] at hp
      exact absurd hp Option.noConfusion
    | some r2 =>
      rw [hcl] at hp
      dsimp only at hp
      cases hem : cursor_enter_move_step r2 with
      | none =>
        rw [hem] at hp
        exact absurd hp Option.noConfusion
      | some pr =>
        obtain ⟨r3, b3⟩ := pr
        rw [hem] at hp
        dsimp only at hp
        cases hp
        obtain ⟨hpk2, hprev2, hmp2, hbtr, hev⟩ := cursor_leave_cases _ _ hcl
        obtain ⟨hprev3, hpk3, rest2, hev2, hkinds2, henters⟩ :=
          cursor_enter_move_cases _ _ _ hem
        have hnoenter : ∀ e ∈ rest2, e.kind ≠ UIEventKind.mouseEnter := by
          intro e hmem hk
          obtain ⟨w, hbw, hfw⟩ := henters e hmem hk
          rw [hpk2] at hbw
          rw [hbtr] at hbw
          have hcontra := hflag w hbw
          rw [hfw] at hcontra
          exact Bool.noConfusion hcontra
        cases hev with
        | inl heq =>
          refine ⟨rest2, ?_, hnoenter⟩
          dsimp only
          rw [hev2, heq]
        | inr hfired =>
          obtain ⟨wP, hbP, hovP, hevL⟩ := hfired
          refine ⟨⟨false, UIEventKind.mouseLeave, Handle.NONE, ui.prev_picked_node⟩ ::
            rest2, ?_, ?_⟩
          · dsimp only
            rw [hev2, hevL]
            simp
          · intro e hmem
            rcases List.mem_cons.1 hmem with h1 | h2
            · subst h1
              exact fun hc => UIEventKind.noConfusion hc
            · exact hnoenter e h2

unseal Rat.add Rat.sub Rat.mul in
/-- Witness for claim C8: the concrete two-node interface moveUI runs
the two cursor moves and enqueues exactly the five events. -/
theorem claim_c8_witness :
    process_input_event 10 moveUI (WindowEvent.CursorMoved movePt1) =
      some (moveUI1, true) ∧
    process_input_event 10 moveUI1 (WindowEvent.CursorMoved movePt2) =
      some (moveUI2, true) ∧
    moveUI2.events = moveUI.events ++
      [⟨false, UIEventKind.mouseEnter, Handle.NONE, moveX⟩,
       ⟨false, UIEventKind.mouseMove movePt1, Handle.NONE, moveX⟩,
       ⟨false, UIEventKind.mouseLeave, Handle.NONE, moveX⟩,
       ⟨false, UIEventKind.mouseEnter, Handle.NONE, moveY⟩,
       ⟨false, UIEventKind.mouseMove movePt2, Handle.NONE, moveY⟩] :=
  ⟨rfl, rfl,
    (claim_c8.1 10 moveUI movePt1 movePt2 moveX moveY moveWX moveWY moveUI1 true
      moveUI2 true rfl (by decide) (by decide) (by decide) rfl rfl rfl rfl rfl rfl
      rfl rfl).1⟩

/-- A successfully borrowed handle is never the null sentinel. -/
theorem pool_borrow_ne_none {α : Type} (p : Pool α) (h : Handle) (a : α)
    (hb : p.borrow h = some a) : h ≠ Handle.NONE := by
  intro heq
  rw [heq, pool_borrow_none] at hb
  exact Option.noConfusion hb

/-- The handle one past the end of the records is not borrowable. -/
theorem pool_borrow_fresh {α : Type} (p : Pool α) (g : Nat) :
    p.borrow ⟨p.records.length, g⟩ = none := by
  unfold Pool.borrow
  rw [List.getElem?_eq_none (le_refl p.records.length)]

/-- Borrowing in a freshly spawned pool: the new handle resolves to the
new payload and every other handle behaves as before. -/
theorem pool_borrow_spawn {α : Type} (p : Pool α) (a : α) (h2 : Handle) :
    (p.spawn a).1.borrow h2 =
      if h2 = (⟨p.records.length, 1⟩ : Handle) then some a else p.borrow h2 := by
  unfold Pool.spawn Pool.borrow
  by_cases heq : h2 = (⟨p.records.length, 1⟩ : Handle)
  · rw [if_pos heq, heq]
    dsimp only
    rw [List.getElem?_append_right (le_refl p.records.length)]
    simp
  · rw [if_neg heq]
    dsimp only
    by_cases hlt : h2.index < p.records.length
    · rw [List.getElem?_append_left hlt]
    · by_cases hidx : h2.index = p.records.length
      · have hgne : h2.generation ≠ 1 := by
          intro hg
          apply heq
          cases h2
          simp only at hidx hg
          rw [hidx, hg]
        rw [hidx]
        rw [List.getElem?_append_right (le_refl p.records.length)]
        rw [Nat.sub_self]
        rw [List.getElem?_eq_none (le_refl p.records.length)]
        rw [List.getElem?_cons_zero]
        dsimp only
        rw [if_neg (fun hc => hgne (hc.1.symm))]
      · have hge : p.records.length ≤ h2.index := Nat.le_of_not_lt hlt
        have hgt : (p.records ++ [(⟨1, some a⟩ : PoolRecord α)]).length ≤ h2.index := by
          rw [List.length_append]
          simp only [List.length_singleton]
          omega
        rw [List.getElem?_eq_none hgt]
        rw [List.getElem?_eq_none hge]

/-- Symbolic execution of unlink_node when the node has no parent. -/
theorem unlink_eq_no_parent (ui : UserInterface) (c : Handle) (wc : Widget)
    (hb : ui.nodes.borrow c = some wc) (hp : wc.parent = Handle.NONE) :
    unlink_node ui c = some { ui with nodes :=
      ⟨ui.nodes.records.set c.index
        ⟨c.generation, some { wc with parent := Handle.NONE }⟩⟩ } := by
  unfold unlink_node
  rw [hb]
  dsimp only
  rw [pool_modifyAt_eq ui.nodes c _ wc hb]
  dsimp only
  rw [hp]
  rw [if_neg (by decide : ¬(Handle.NONE.is_some = true))]

/-- Symbolic execution of unlink_node when the node's parent is another
live node: both slots are rewritten. -/
theorem unlink_eq_parent (ui : UserInterface) (c : Handle) (wc : Widget)
    (P : Handle) (wp : Widget)
    (hb : ui.nodes.borrow c = some wc) (hP : wc.parent = P)
    (hPn : P ≠ Handle.NONE) (hPc : P ≠ c)
    (hbP : ui.nodes.borrow P = some wp) :
    unlink_node ui c = some { ui with nodes :=
      ⟨(ui.nodes.records.set c.index
          ⟨c.generation, some { wc with parent := Handle.NONE }⟩).set P.index
        ⟨P.generation, some { wp with children := wp.children.erase c }⟩⟩ } := by
  unfold unlink_node
  rw [hb]
  dsimp only
  rw [pool_modifyAt_eq ui.nodes c _ wc hb]
  dsimp only
  rw [hP]
  rw [if_pos (handle_is_some_true hPn)]
  rw [pool_modifyAt_eq _ P _ wp
    (by
      rw [pool_borrow_set_other ui.nodes c P _ wc hb hPc]
      exact hbP)]

/-- Symbolic execution of unlink_node when the node is its own parent. -/
theorem unlink_eq_self_parent (ui : UserInterface) (c : Handle) (wc : Widget)
    (hb : ui.nodes.borrow c = some wc) (hP : wc.parent = c) :
    unlink_node ui c = some { ui with nodes :=
      ⟨(ui.nodes.records.set c.index
          ⟨c.generation, some { wc with parent := Handle.NONE }⟩).set c.index
        ⟨c.generation, some { wc with
          parent := Handle.NONE
          children := wc.children.erase c }⟩⟩ } := by
  unfold unlink_node
  rw [hb]
  dsimp only
  rw [pool_modifyAt_eq ui.nodes c _ wc hb]
  dsimp only
  rw [hP]
  rw [if_pos (handle_is_some_true (pool_borrow_ne_none ui.nodes c wc hb))]
  rw [pool_modifyAt_eq _ c _ { wc with parent := Handle.NONE }
    (pool_borrow_set_same ui.nodes c _ wc hb)]

/-- Pointwise borrow description after the single-slot rewrite of an
unlink with no parent. -/
theorem borrow_after_unlinkA (ui : UserInterface) (c : Handle) (wc : Widget)
    (hb : ui.nodes.borrow c = some wc) :
    ∀ h2, (⟨ui.nodes.records.set c.index
        ⟨c.generation, some { wc with parent := Handle.NONE }⟩⟩ : Pool Widget).borrow h2 =
      if h2 = c then some { wc with parent := Handle.NONE } else ui.nodes.borrow h2 := by
  intro h2
  by_cases he : h2 = c
  · rw [if_pos he, he]
    exact pool_borrow_set_same ui.nodes c _ wc hb
  · rw [if_neg he]
    exact pool_borrow_set_other ui.nodes c h2 _ wc hb he

/-- Pointwise borrow description after the two-slot rewrite of an
unlink from a distinct parent. -/
theorem borrow_after_unlinkB (ui : UserInterface) (c : Handle) (wc : Widget)
    (P : Handle) (wp : Widget)
    (hb : ui.nodes.borrow c = some wc) (hbP : ui.nodes.borrow P = some wp)
    (hPc : P ≠ c) :
    ∀ h2, (⟨(ui.nodes.records.set c.index
          ⟨c.generation, some { wc with parent := Handle.NONE }⟩).set P.index
        ⟨P.generation, some { wp with children := wp.children.erase c }⟩⟩ : Pool Widget).borrow h2 =
      if h2 = P then some { wp with children := wp.children.erase c }
      else if h2 = c then some { wc with parent := Handle.NONE }
      else ui.nodes.borrow h2 := by
  have hb1 : ∀ h2, (⟨ui.nodes.records.set c.index
      ⟨c.generation, some { wc with parent := Handle.NONE }⟩⟩ : Pool Widget).borrow h2 =
      if h2 = c then some { wc with parent := Handle.NONE } else ui.nodes.borrow h2 :=
    borrow_after_unlinkA ui c wc hb
  have hb1P : (⟨ui.nodes.records.set c.index
      ⟨c.generation, some { wc with parent := Handle.NONE }⟩⟩ : Pool Widget).borrow P =
      some wp := by
    rw [hb1 P, if_neg hPc]
    exact hbP
  intro h2
  by_cases heP : h2 = P
  · rw [if_pos heP, heP]
    exact pool_borrow_set_same _ P _ wp hb1P
  · rw [if_neg heP]
    rw [show (⟨(ui.nodes.records.set c.index
        ⟨c.generation, some { wc with parent := Handle.NONE }⟩).set P.index
      ⟨P.generation, some { wp with children := wp.children.erase c }⟩⟩ : Pool Widget).borrow h2 =
      (⟨ui.nodes.records.set c.index
        ⟨c.generation, some { wc with parent := Handle.NONE }⟩⟩ : Pool Widget).borrow h2 from
      pool_borrow_set_other _ P h2 _ wp hb1P heP]
    exact hb1 h2

/-- Pointwise borrow description after the double rewrite of the same
slot in a self-parented unlink. -/
theorem borrow_after_unlinkC (ui : UserInterface) (c : Handle) (wc : Widget)
    (hb : ui.nodes.borrow c = some wc) :
    ∀ h2, (⟨(ui.nodes.records.set c.index
          ⟨c.generation, some { wc with parent := Handle.NONE }⟩).set c.index
        ⟨c.generation, some { wc with
          parent := Handle.NONE
          children := wc.children.erase c }⟩⟩ : Pool Widget).borrow h2 =
      if h2 = c then some { wc with
        parent := Handle.NONE
        children := wc.children.erase c }
      else ui.nodes.borrow h2 := by
  have hb1c : (⟨ui.nodes.records.set c.index
      ⟨c.generation, some { wc with parent := Handle.NONE }⟩⟩ : Pool Widget).borrow c =
      some { wc with parent := Handle.NONE } :=
    pool_borrow_set_same ui.nodes c _ wc hb
  intro h2
  by_cases he : h2 = c
  · rw [if_pos he, he]
    exact pool_borrow_set_same _ c _ _ hb1c
  · rw [if_neg he]
    rw [show (⟨(ui.nodes.records.set c.index
        ⟨c.generation, some { wc with parent := Handle.NONE }⟩).set c.index
      ⟨c.generation, some { wc with
        parent := Handle.NONE
        children := wc.children.erase c }⟩⟩ : Pool Widget).borrow h2 =
      (⟨ui.nodes.records.set c.index
        ⟨c.generation, some { wc with parent := Handle.NONE }⟩⟩ : Pool Widget).borrow h2 from
      pool_borrow_set_other _ c h2 _ _ hb1c he]
    rw [show (⟨ui.nodes.records.set c.index
        ⟨c.generation, some { wc with parent := Handle.NONE }⟩⟩ : Pool Widget).borrow h2 =
      ui.nodes.borrow h2 from pool_borrow_set_other ui.nodes c h2 _ wc hb he]

/-- Invariant preservation for an unlink whose node had no parent. -/
theorem links_pres_unlinkA (s s2 : UserInterface) (c : Handle) (wc : Widget)
    (hInv : LinksInv s) (hb : s.nodes.borrow c = some wc) (hp : wc.parent = Handle.NONE)
    (desc : ∀ h2, s2.nodes.borrow h2 =
      if h2 = c then some { wc with parent := Handle.NONE } else s.nodes.borrow h2) :
    LinksInv s2 ∧ NotListed s2 c := by
  obtain ⟨hChild, hParent⟩ := hInv
  have hNotMem : ∀ p wp, s.nodes.borrow p = some wp → c ∉ wp.children := by
    intro p wp hbp hmem
    obtain ⟨wc2, hbc2, hpar2⟩ := hChild p wp hbp c hmem
    rw [hb] at hbc2
    have hwc2 : wc = wc2 := Option.some.inj hbc2
    rw [← hwc2] at hpar2
    rw [hp] at hpar2
    exact pool_borrow_ne_none s.nodes p wp hbp hpar2.symm
  refine ⟨⟨?_, ?_⟩, ?_⟩
  · intro p wp2 hbp2 c2 hc2
    rw [desc p] at hbp2
    by_cases hpc : p = c
    · rw [if_pos hpc] at hbp2
      have hwp2 : wp2 = { wc with parent := Handle.NONE } := (Option.some.inj hbp2).symm
      subst hwp2
      obtain ⟨wc2, hbc2, hpar2⟩ := hChild c wc hb c2 hc2
      have hcc : c2 ≠ c := by
        intro hcon
        exact hNotMem c wc hb (hcon ▸ hc2)
      refine ⟨wc2, ?_, ?_⟩
      · rw [desc c2, if_neg hcc]
        exact hbc2
      · rw [hpar2, hpc]
    · rw [if_neg hpc] at hbp2
      obtain ⟨wc2, hbc2, hpar2⟩ := hChild p wp2 hbp2 c2 hc2
      have hcc : c2 ≠ c := by
        intro hcon
        exact hNotMem p wp2 hbp2 (hcon ▸ hc2)
      refine ⟨wc2, ?_, hpar2⟩
      rw [desc c2, if_neg hcc]
      exact hbc2
  · intro c2 wc2 hbc2 hpar2
    rw [desc c2] at hbc2
    by_cases hcc : c2 = c
    · rw [if_pos hcc] at hbc2
      have hwc2 : wc2 = { wc with parent := Handle.NONE } := (Option.some.inj hbc2).symm
      rw [hwc2] at hpar2
      exact absurd rfl hpar2
    · rw [if_neg hcc] at hbc2
      obtain ⟨wp, hbp, hcount⟩ := hParent c2 wc2 hbc2 hpar2
      by_cases hpc : wc2.parent = c
      · refine ⟨{ wc with parent := Handle.NONE }, ?_, ?_⟩
        · rw [desc wc2.parent, if_pos hpc]
        · rw [hpc] at hbp
          rw [hb] at hbp
          have hwp : wp = wc := Option.some.inj hbp.symm
          rw [hwp] at hcount
          exact hcount
      · refine ⟨wp, ?_, hcount⟩
        rw [desc wc2.parent, if_neg hpc]
        exact hbp
  · intro p wp2 hbp2 hmem
    rw [desc p] at hbp2
    by_cases hpc : p = c
    · rw [if_pos hpc] at hbp2
      have hwp2 : wp2 = { wc with parent := Handle.NONE } := (Option.some.inj hbp2).symm
      subst hwp2
      exact hNotMem c wc hb hmem
    · rw [if_neg hpc] at hbp2
      exact hNotMem p wp2 hbp2 hmem

/-- Invariant preservation for an unlink from a distinct live parent. -/
theorem links_pres_unlinkB (s s2 : UserInterface) (c : Handle) (wc : Widget)
    (P : Handle) (wp : Widget)
    (hInv : LinksInv s) (hb : s.nodes.borrow c = some wc) (hP : wc.parent = P)
    (hPn : P ≠ Handle.NONE) (hPc : P ≠ c)
    (hbP : s.nodes.borrow P = some wp)
    (desc : ∀ h2, s2.nodes.borrow h2 =
      if h2 = P then some { wp with children := wp.children.erase c }
      else if h2 = c then some { wc with parent := Handle.NONE }
      else s.nodes.borrow h2) :
    LinksInv s2 ∧ NotListed s2 c := by
  obtain ⟨hChild, hParent⟩ := hInv
  have hcount : wp.children.count c = 1 := by
    obtain ⟨wq, hbq, hcnt⟩ := hParent c wc hb (by rw [hP]; exact hPn)
    rw [hP] at hbq
    rw [hbP] at hbq
    have hwq : wq = wp := (Option.some.inj hbq).symm
    rw [hwq] at hcnt
    exact hcnt
  have hNotErase : c ∉ wp.children.erase c := by
    rw [← List.count_eq_zero]
    rw [List.count_erase_self]
    rw [hcount]
  have hNotMemOther : ∀ q wq, s.nodes.borrow q = some wq → q ≠ P → c ∉ wq.children := by
    intro q wq hbq hqP hmem
    obtain ⟨wc2, hbc2, hpar2⟩ := hChild q wq hbq c hmem
    rw [hb] at hbc2
    have hwc2 : wc = wc2 := Option.some.inj hbc2
    rw [← hwc2] at hpar2
    rw [hP] at hpar2
    exact hqP hpar2.symm
  refine ⟨⟨?_, ?_⟩, ?_⟩
  · intro p wp2 hbp2 c2 hc2
    rw [desc p] at hbp2
    by_cases hpP : p = P
    · rw [if_pos hpP] at hbp2
      have hwp2 : wp2 = { wp with children := wp.children.erase c } :=
        (Option.some.inj hbp2).symm
      rw [hwp2] at hc2
      have hmem : c2 ∈ wp.children := List.mem_of_mem_erase hc2
      have hcc : c2 ≠ c := by
        intro hcon
        exact hNotErase (hcon ▸ hc2)
      obtain ⟨wc2, hbc2, hpar2⟩ := hChild P wp hbP c2 hmem
      rw [desc c2]
      by_cases hc2P : c2 = P
      · rw [if_pos hc2P]
        refine ⟨{ wp with children := wp.children.erase c }, rfl, ?_⟩
        rw [hc2P] at hbc2
        rw [hbP] at hbc2
        have hwc2 : wc2 = wp := (Option.some.inj hbc2).symm
        rw [hwc2] at hpar2
        show wp.parent = p
        rw [hpar2, hpP]
      · rw [if_neg hc2P, if_neg hcc]
        refine ⟨wc2, hbc2, ?_⟩
        rw [hpar2, hpP]
    · rw [if_neg hpP] at hbp2
      by_cases hpc : p = c
      · rw [if_pos hpc] at hbp2
        have hwp2 : wp2 = { wc with parent := Handle.NONE } :=
          (Option.some.inj hbp2).symm
        rw [hwp2] at hc2
        have hmem : c2 ∈ wc.children := hc2
        obtain ⟨wc2, hbc2, hpar2⟩ := hChild c wc hb c2 hmem
        have hcc : c2 ≠ c := by
          intro hcon
          rw [hcon] at hbc2
          rw [hb] at hbc2
          have hwc2 : wc2 = wc := (Option.some.inj hbc2).symm
          rw [hwc2] at hpar2
          rw [hP] at hpar2
          exact hPc hpar2
        rw [desc c2]
        by_cases hc2P : c2 = P
        · rw [if_pos hc2P]
          refine ⟨{ wp with children := wp.children.erase c }, rfl, ?_⟩
          rw [hc2P] at hbc2
          rw [hbP] at hbc2
          have hwc2 : wc2 = wp := (Option.some.inj hbc2).symm
          rw [hwc2] at hpar2
          show wp.parent = p
          rw [hpar2, hpc]
        · rw [if_neg hc2P, if_neg hcc]
          exact ⟨wc2, hbc2, by rw [hpar2, hpc]⟩
      · rw [if_neg hpc] at hbp2
        obtain ⟨wc2, hbc2, hpar2⟩ := hChild p wp2 hbp2 c2 hc2
        have hcc : c2 ≠ c := by
          intro hcon
          rw [hcon] at hbc2
          rw [hb] at hbc2
          have hwc2 : wc2 = wc := (Option.some.inj hbc2).symm
          rw [hwc2] at hpar2
          rw [hP] at hpar2
          exact hpP hpar2.symm
        rw [desc c2]
        by_cases hc2P : c2 = P
        · rw [if_pos hc2P]
          refine ⟨{ wp with children := wp.children.erase c }, rfl, ?_⟩
          rw [hc2P] at hbc2
          rw [hbP] at hbc2
          have hwc2 : wc2 = wp := (Option.some.inj hbc2).symm
          rw [hwc2] at hpar2
          exact hpar2
        · rw [if_neg hc2P, if_neg hcc]
          exact ⟨wc2, hbc2, hpar2⟩
  · intro c2 wc2 hbc2 hpar2
    rw [desc c2] at hbc2
    by_cases hc2P : c2 = P
    · rw [if_pos hc2P] at hbc2
      have hwc2 : wc2 = { wp with children := wp.children.erase c } :=
        (Option.some.inj hbc2).symm
      have hparw : wc2.parent = wp.parent := by rw [hwc2]
      rw [hparw] at hpar2 ⊢
      obtain ⟨wq, hbq, hcnt⟩ := hParent P wp hbP hpar2
      rw [desc wp.parent]
      by_cases hqP : wp.parent = P
      · rw [if_pos hqP]
        refine ⟨{ wp with children := wp.children.erase c }, rfl, ?_⟩
        show (wp.children.erase c).count c2 = 1
        rw [hc2P]
        rw [hqP] at hbq
        rw [hbP] at hbq
        have hwq : wq = wp := (Option.some.inj hbq).symm
        rw [List.count_erase_of_ne hPc]
        rw [hwq] at hcnt
        exact hcnt
      · by_cases hqc : wp.parent = c
        · rw [if_neg hqP, if_pos hqc]
          refine ⟨{ wc with parent := Handle.NONE }, rfl, ?_⟩
          show wc.children.count c2 = 1
          rw [hqc] at hbq
          rw [hb] at hbq
          have hwq : wq = wc := (Option.some.inj hbq).symm
          rw [← hwq]
          rw [hc2P]
          exact hcnt
        · rw [if_neg hqP, if_neg hqc]
          refine ⟨wq, hbq, ?_⟩
          rw [hc2P]
          exact hcnt
    · rw [if_neg hc2P] at hbc2
      by_cases hc2c : c2 = c
      · rw [if_pos hc2c] at hbc2
        have hwc2 : wc2 = { wc with parent := Handle.NONE } :=
          (Option.some.inj hbc2).symm
        rw [hwc2] at hpar2
        exact absurd rfl hpar2
      · rw [if_neg hc2c] at hbc2
        obtain ⟨wq, hbq, hcnt⟩ := hParent c2 wc2 hbc2 hpar2
        rw [desc wc2.parent]
        by_cases hqP : wc2.parent = P
        · rw [if_pos hqP]
          refine ⟨{ wp with children := wp.children.erase c }, rfl, ?_⟩
          show (wp.children.erase c).count c2 = 1
          rw [List.count_erase_of_ne hc2c]
          rw [hqP] at hbq
          rw [hbP] at hbq
          have hwq : wq = wp := (Option.some.inj hbq).symm
          rw [← hwq]
          exact hcnt
        · by_cases hqc : wc2.parent = c
          · rw [if_neg hqP, if_pos hqc]
            refine ⟨{ wc with parent := Handle.NONE }, rfl, ?_⟩
            show wc.children.count c2 = 1
            rw [hqc] at hbq
            rw [hb] at hbq
            have hwq : wq = wc := (Option.some.inj hbq).symm
            rw [← hwq]
            exact hcnt
          · rw [if_neg hqP, if_neg hqc]
            exact ⟨wq, hbq, hcnt⟩
  · intro p wp2 hbp2 hmem
    rw [desc p] at hbp2
    by_cases hpP : p = P
    · rw [if_pos hpP] at hbp2
      have hwp2 : wp2 = { wp with children := wp.children.erase c } :=
        (Option.some.inj hbp2).symm
      rw [hwp2] at hmem
      exact hNotErase hmem
    · rw [if_neg hpP] at hbp2
      by_cases hpc : p = c
      · rw [if_pos hpc] at hbp2
        have hwp2 : wp2 = { wc with parent := Handle.NONE } :=
          (Option.some.inj hbp2).symm
        rw [hwp2] at hmem
        obtain ⟨wc2, hbc2, hpar2⟩ := hChild c wc hb c hmem
        rw [hb] at hbc2
        have hwc2 : wc2 = wc := (Option.some.inj hbc2).symm
        rw [hwc2] at hpar2
        rw [hP] at hpar2
        exact hPc hpar2
      · rw [if_neg hpc] at hbp2
        exact hNotMemOther p wp2 hbp2 hpP hmem

/-- Invariant preservation for an unlink of a self-parented node. -/
theorem links_pres_unlinkC (s s2 : UserInterface) (c : Handle) (wc : Widget)
    (hInv : LinksInv s) (hb : s.nodes.borrow c = some wc) (hP : wc.parent = c)
    (desc : ∀ h2, s2.nodes.borrow h2 =
      if h2 = c then some { wc with
        parent := Handle.NONE
        children := wc.children.erase c }
      else s.nodes.borrow h2) :
    LinksInv s2 ∧ NotListed s2 c := by
  obtain ⟨hChild, hParent⟩ := hInv
  have hcn : c ≠ Handle.NONE := pool_borrow_ne_none s.nodes c wc hb
  have hcount : wc.children.count c = 1 := by
    obtain ⟨wq, hbq, hcnt⟩ := hParent c wc hb (by rw [hP]; exact hcn)
    rw [hP, hb] at hbq
    have hwq : wq = wc := (Option.some.inj hbq).symm
    rw [hwq] at hcnt
    exact hcnt
  have hNotErase : c ∉ wc.children.erase c := by
    rw [← List.count_eq_zero, List.count_erase_self, hcount]
  have hNotMemOther : ∀ q wq, s.nodes.borrow q = some wq → q ≠ c → c ∉ wq.children := by
    intro q wq hbq hqc hmem
    obtain ⟨wc2, hbc2, hpar2⟩ := hChild q wq hbq c hmem
    rw [hb] at hbc2
    have hwc2 : wc = wc2 := Option.some.inj hbc2
    rw [← hwc2] at hpar2
    rw [hP] at hpar2
    exact hqc hpar2.symm
  refine ⟨⟨?_, ?_⟩, ?_⟩
  · intro p wp2 hbp2 c2 hc2
    rw [desc p] at hbp2
    by_cases hpc : p = c
    · rw [if_pos hpc] at hbp2
      have hwp2 : wp2 = { wc with
          parent := Handle.NONE
          children := wc.children.erase c } := (Option.some.inj hbp2).symm
      rw [hwp2] at hc2
      have hmem : c2 ∈ wc.children := List.mem_of_mem_erase hc2
      have hcc : c2 ≠ c := fun hcon => hNotErase (hcon ▸ hc2)
      obtain ⟨wc2, hbc2, hpar2⟩ := hChild c wc hb c2 hmem
      refine ⟨wc2, ?_, ?_⟩
      · rw [desc c2, if_neg hcc]
        exact hbc2
      · rw [hpar2, hpc]
    · rw [if_neg hpc] at hbp2
      obtain ⟨wc2, hbc2, hpar2⟩ := hChild p wp2 hbp2 c2 hc2
      have hcc : c2 ≠ c := by
        intro hcon
        rw [hcon] at hbc2
        rw [hb] at hbc2
        have hwc2 : wc2 = wc := (Option.some.inj hbc2).symm
        rw [hwc2] at hpar2
        rw [hP] at hpar2
        exact hpc hpar2.symm
      refine ⟨wc2, ?_, hpar2⟩
      rw [desc c2, if_neg hcc]
      exact hbc2
  · intro c2 wc2 hbc2 hpar2
    rw [desc c2] at hbc2
    by_cases hcc : c2 = c
    · rw [if_pos hcc] at hbc2
      have hwc2 : wc2 = { wc with
          parent := Handle.NONE
          children := wc.children.erase c } := (Option.some.inj hbc2).symm
      rw [hwc2] at hpar2
      exact absurd rfl hpar2
    · rw [if_neg hcc] at hbc2
      obtain ⟨wq, hbq, hcnt⟩ := hParent c2 wc2 hbc2 hpar2
      rw [desc wc2.parent]
      by_cases hqc : wc2.parent = c
      · rw [if_pos hqc]
        refine ⟨_, rfl, ?_⟩
        show (wc.children.erase c).count c2 = 1
        rw [List.count_erase_of_ne hcc]
        rw [hqc, hb] at hbq
        have hwq : wq = wc := (Option.some.inj hbq).symm
        rw [hwq] at hcnt
        exact hcnt
      · rw [if_neg hqc]
        exact ⟨wq, hbq, hcnt⟩
  · intro p wp2 hbp2 hmem
    rw [desc p] at hbp2
    by_cases hpc : p = c
    · rw [if_pos hpc] at hbp2
      have hwp2 : wp2 = { wc with
          parent := Handle.NONE
          children := wc.children.erase c } := (Option.some.inj hbp2).symm
      rw [hwp2] at hmem
      exact hNotErase hmem
    · rw [if_neg hpc] at hbp2
      exact hNotMemOther p wp2 hbp2 hpc hmem

/-- Decomposition of a successful mutation: the borrowed payload exists
and the result pool is the single-slot replacement. -/
theorem pool_modifyAt_some {α : Type} (p : Pool α) (h : Handle) (f : α → α) (q : Pool α)
    (hm : p.modifyAt h f = some q) :
    ∃ a, p.borrow h = some a ∧
      q = ⟨p.records.set h.index ⟨h.generation, some (f a)⟩⟩ := by
  unfold Pool.modifyAt at hm
  cases hb : p.borrow h with
  | none =>
    rw [hb] at hm
    exact absurd hm Option.noConfusion
  | some a =>
    rw [hb] at hm
    exact ⟨a, rfl, (Option.some.inj hm).symm⟩

/-- Pointwise borrow description after two single-slot replacements at
distinct live handles. -/
theorem pool_borrow_set_set {α : Type} (p : Pool α) (c P : Handle) (ac aP bc bP : α)
    (hb : p.borrow c = some ac) (hbP : p.borrow P = some aP) (hPc : P ≠ c) :
    ∀ h2, (⟨(p.records.set c.index ⟨c.generation, some bc⟩).set P.index
        ⟨P.generation, some bP⟩⟩ : Pool α).borrow h2 =
      if h2 = P then some bP else if h2 = c then some bc else p.borrow h2 := by
  have hb1 : ∀ h2, (⟨p.records.set c.index ⟨c.generation, some bc⟩⟩ : Pool α).borrow h2 =
      if h2 = c then some bc else p.borrow h2 := by
    intro h2
    by_cases he : h2 = c
    · rw [if_pos he, he]
      exact pool_borrow_set_same p c bc ac hb
    · rw [if_neg he]
      exact pool_borrow_set_other p c h2 bc ac hb he
  have hb1P : (⟨p.records.set c.index ⟨c.generation, some bc⟩⟩ : Pool α).borrow P =
      some aP := by
    rw [hb1 P, if_neg hPc]
    exact hbP
  intro h2
  by_cases heP : h2 = P
  · rw [if_pos heP, heP]
    exact pool_borrow_set_same _ P bP aP hb1P
  · rw [if_neg heP]
    rw [show (⟨(p.records.set c.index ⟨c.generation, some bc⟩).set P.index
        ⟨P.generation, some bP⟩⟩ : Pool α).borrow h2 =
      (⟨p.records.set c.index ⟨c.generation, some bc⟩⟩ : Pool α).borrow h2 from
      pool_borrow_set_other _ P h2 bP aP hb1P heP]
    exact hb1 h2

/-- Pointwise borrow description after two replacements of the same
slot: only the second survives. -/
theorem pool_borrow_set_set_self {α : Type} (p : Pool α) (c : Handle) (ac b1 b2 : α)
    (hb : p.borrow c = some ac) :
    ∀ h2, (⟨(p.records.set c.index ⟨c.generation, some b1⟩).set c.index
        ⟨c.generation, some b2⟩⟩ : Pool α).borrow h2 =
      if h2 = c then some b2 else p.borrow h2 := by
  have hb1c : (⟨p.records.set c.index ⟨c.generation, some b1⟩⟩ : Pool α).borrow c =
      some b1 :=
    pool_borrow_set_same p c b1 ac hb
  intro h2
  by_cases he : h2 = c
  · rw [if_pos he, he]
    exact pool_borrow_set_same _ c b2 b1 hb1c
  · rw [if_neg he]
    rw [show (⟨(p.records.set c.index ⟨c.generation, some b1⟩).set c.index
        ⟨c.generation, some b2⟩⟩ : Pool α).borrow h2 =
      (⟨p.records.set c.index ⟨c.generation, some b1⟩⟩ : Pool α).borrow h2 from
      pool_borrow_set_other _ c h2 b2 b1 hb1c he]
    exact pool_borrow_set_other p c h2 b1 ac hb he

/-- unlink_node fails fast when the node's distinct parent handle is
not live: the parent borrow panics. -/
theorem unlink_dead_parent (ui : UserInterface) (c : Handle) (wc : Widget)
    (hb : ui.nodes.borrow c = some wc)
    (hPn : wc.parent ≠ Handle.NONE) (hPc : wc.parent ≠ c)
    (hbP : ui.nodes.borrow wc.parent = none) :
    unlink_node ui c = none := by
  unfold unlink_node
  rw [hb]
  dsimp only
  rw [pool_modifyAt_eq ui.nodes c _ wc hb]
  dsimp only
  rw [if_pos (handle_is_some_true hPn)]
  unfold Pool.modifyAt
  rw [show (⟨ui.nodes.records.set c.index
      ⟨c.generation, some { wc with parent := Handle.NONE }⟩⟩ : Pool Widget).borrow wc.parent =
    ui.nodes.borrow wc.parent from
    pool_borrow_set_other ui.nodes c wc.parent _ wc hb hPc]
  rw [hbP]

/-- Core invariant preservation for clearing one node's parent field
when the node is on nobody's children list. -/
theorem links_pres_unlink_core (s s2 : UserInterface) (c : Handle) (wc : Widget)
    (hChild : ChildOk s) (hParE : ParentOkExcept s c)
    (hb : s.nodes.borrow c = some wc)
    (hNotMem : ∀ p wp, s.nodes.borrow p = some wp → c ∉ wp.children)
    (desc : ∀ h2, s2.nodes.borrow h2 =
      if h2 = c then some { wc with parent := Handle.NONE } else s.nodes.borrow h2) :
    LinksInv s2 ∧ NotListed s2 c := by
  refine ⟨⟨?_, ?_⟩, ?_⟩
  · intro p wp2 hbp2 c2 hc2
    rw [desc p] at hbp2
    by_cases hpc : p = c
    · rw [if_pos hpc] at hbp2
      have hwp2 : wp2 = { wc with parent := Handle.NONE } := (Option.some.inj hbp2).symm
      subst hwp2
      obtain ⟨wc2, hbc2, hpar2⟩ := hChild c wc hb c2 hc2
      have hcc : c2 ≠ c := by
        intro hcon
        exact hNotMem c wc hb (hcon ▸ hc2)
      refine ⟨wc2, ?_, ?_⟩
      · rw [desc c2, if_neg hcc]
        exact hbc2
      · rw [hpar2, hpc]
    · rw [if_neg hpc] at hbp2
      obtain ⟨wc2, hbc2, hpar2⟩ := hChild p wp2 hbp2 c2 hc2
      have hcc : c2 ≠ c := by
        intro hcon
        exact hNotMem p wp2 hbp2 (hcon ▸ hc2)
      refine ⟨wc2, ?_, hpar2⟩
      rw [desc c2, if_neg hcc]
      exact hbc2
  · intro c2 wc2 hbc2 hpar2
    rw [desc c2] at hbc2
    by_cases hcc : c2 = c
    · rw [if_pos hcc] at hbc2
      have hwc2 : wc2 = { wc with parent := Handle.NONE } := (Option.some.inj hbc2).symm
      rw [hwc2] at hpar2
      exact absurd rfl hpar2
    · rw [if_neg hcc] at hbc2
      obtain ⟨wp, hbp, hcount⟩ := hParE c2 wc2 hbc2 hpar2 hcc
      by_cases hpc : wc2.parent = c
      · refine ⟨{ wc with parent := Handle.NONE }, ?_, ?_⟩
        · rw [desc wc2.parent, if_pos hpc]
        · rw [hpc] at hbp
          rw [hb] at hbp
          have hwp : wp = wc := Option.some.inj hbp.symm
          rw [hwp] at hcount
          exact hcount
      · refine ⟨wp, ?_, hcount⟩
        rw [desc wc2.parent, if_neg hpc]
        exact hbp
  · intro p wp2 hbp2 hmem
    rw [desc p] at hbp2
    by_cases hpc : p = c
    · rw [if_pos hpc] at hbp2
      have hwp2 : wp2 = { wc with parent := Handle.NONE } := (Option.some.inj hbp2).symm
      subst hwp2
      exact hNotMem c wc hb hmem
    · rw [if_neg hpc] at hbp2
      exact hNotMem p wp2 hbp2 hmem

/-- unlink_node from a consistent state: the invariant is preserved, the
node ends with a null parent, and it sits on no children list. -/
theorem unlink_pres (s s2 : UserInterface) (c : Handle)
    (hInv : LinksInv s) (he : unlink_node s c = some s2) :
    LinksInv s2 ∧ NotListed s2 c ∧ s2.root_canvas = s.root_canvas ∧
    ∃ wc2, s2.nodes.borrow c = some wc2 ∧ wc2.parent = Handle.NONE := by
  cases hb : s.nodes.borrow c with
  | none =>
    unfold unlink_node at he
    rw [hb] at he
    exact absurd he Option.noConfusion
  | some wc =>
    by_cases hp : wc.parent = Handle.NONE
    · rw [unlink_eq_no_parent s c wc hb hp] at he
      have hs2 : s2 = { s with nodes :=
          ⟨s.nodes.records.set c.index
            ⟨c.generation, some { wc with parent := Handle.NONE }⟩⟩ } :=
        (Option.some.inj he).symm
      have desc : ∀ h2, s2.nodes.borrow h2 =
          if h2 = c then some { wc with parent := Handle.NONE }
          else s.nodes.borrow h2 := by
        intro h2
        rw [hs2]
        exact borrow_after_unlinkA s c wc hb h2
      obtain ⟨hInv2, hNL2⟩ := links_pres_unlinkA s s2 c wc hInv hb hp desc
      refine ⟨hInv2, hNL2, by rw [hs2], ?_⟩
      refine ⟨{ wc with parent := Handle.NONE }, ?_, rfl⟩
      rw [desc c, if_pos rfl]
    · by_cases hpc : wc.parent = c
      · rw [unlink_eq_self_parent s c wc hb hpc] at he
        have hs2 : s2 = { s with nodes :=
            ⟨(s.nodes.records.set c.index
                ⟨c.generation, some { wc with parent := Handle.NONE }⟩).set c.index
              ⟨c.generation, some { wc with
                parent := Handle.NONE
                children := wc.children.erase c }⟩⟩ } :=
          (Option.some.inj he).symm
        have desc : ∀ h2, s2.nodes.borrow h2 =
            if h2 = c then some { wc with
              parent := Handle.NONE
              children := wc.children.erase c }
            else s.nodes.borrow h2 := by
          intro h2
          rw [hs2]
          exact borrow_after_unlinkC s c wc hb h2
        obtain ⟨hInv2, hNL2⟩ := links_pres_unlinkC s s2 c wc hInv hb hpc desc
        refine ⟨hInv2, hNL2, by rw [hs2], ?_⟩
        refine ⟨{ wc with
            parent := Handle.NONE
            children := wc.children.erase c }, ?_, rfl⟩
        rw [desc c, if_pos rfl]
      · obtain ⟨wp, hbP, hcnt⟩ := hInv.2 c wc hb hp
        rw [unlink_eq_parent s c wc wc.parent wp hb rfl hp hpc hbP] at he
        have hs2 : s2 = { s with nodes :=
            ⟨(s.nodes.records.set c.index
                ⟨c.generation, some { wc with parent := Handle.NONE }⟩).set wc.parent.index
              ⟨wc.parent.generation,
                some { wp with children := wp.children.erase c }⟩⟩ } :=
          (Option.some.inj he).symm
        have desc : ∀ h2, s2.nodes.borrow h2 =
            if h2 = wc.parent then some { wp with children := wp.children.erase c }
            else if h2 = c then some { wc with parent := Handle.NONE }
            else s.nodes.borrow h2 := by
          intro h2
          rw [hs2]
          exact borrow_after_unlinkB s c wc wc.parent wp hb hbP hpc h2
        obtain ⟨hInv2, hNL2⟩ :=
          links_pres_unlinkB s s2 c wc wc.parent wp hInv hb rfl hp hpc hbP desc
        refine ⟨hInv2, hNL2, by rw [hs2], ?_⟩
        refine ⟨{ wc with parent := Handle.NONE }, ?_, rfl⟩
        rw [desc c, if_neg (fun hcon => hpc hcon.symm), if_pos rfl]

/-- unlink_node across the weakened invariant of a freshly spawned node:
because the node is on nobody's list, the erase is a no-op and the full
invariant is restored. -/
theorem unlink_pres_weak (s s2 : UserInterface) (c : Handle)
    (hE : LinksInvExcept s c) (he : unlink_node s c = some s2) :
    LinksInv s2 ∧ NotListed s2 c ∧ s2.root_canvas = s.root_canvas ∧
    ∃ wc2, s2.nodes.borrow c = some wc2 ∧ wc2.parent = Handle.NONE := by
  obtain ⟨hChild, hParE, hNL⟩ := hE
  cases hb : s.nodes.borrow c with
  | none =>
    unfold unlink_node at he
    rw [hb] at he
    exact absurd he Option.noConfusion
  | some wc =>
    by_cases hp : wc.parent = Handle.NONE
    · rw [unlink_eq_no_parent s c wc hb hp] at he
      have hs2 : s2 = { s with nodes :=
          ⟨s.nodes.records.set c.index
            ⟨c.generation, some { wc with parent := Handle.NONE }⟩⟩ } :=
        (Option.some.inj he).symm
      have desc : ∀ h2, s2.nodes.borrow h2 =
          if h2 = c then some { wc with parent := Handle.NONE }
          else s.nodes.borrow h2 := by
        intro h2
        rw [hs2]
        exact borrow_after_unlinkA s c wc hb h2
      obtain ⟨hInv2, hNL2⟩ := links_pres_unlink_core s s2 c wc hChild hParE hb hNL desc
      refine ⟨hInv2, hNL2, by rw [hs2], ?_⟩
      refine ⟨{ wc with parent := Handle.NONE }, ?_, rfl⟩
      rw [desc c, if_pos rfl]
    · by_cases hpc : wc.parent = c
      · rw [unlink_eq_self_parent s c wc hb hpc] at he
        have hs2 : s2 = { s with nodes :=
            ⟨(s.nodes.records.set c.index
                ⟨c.generation, some { wc with parent := Handle.NONE }⟩).set c.index
              ⟨c.generation, some { wc with
                parent := Handle.NONE
                children := wc.children.erase c }⟩⟩ } :=
          (Option.some.inj he).symm
        have hnm : c ∉ wc.children := hNL c wc hb
        have herase : wc.children.erase c = wc.children := List.erase_of_not_mem hnm
        have desc : ∀ h2, s2.nodes.borrow h2 =
            if h2 = c then some { wc with parent := Handle.NONE }
            else s.nodes.borrow h2 := by
          intro h2
          rw [hs2]
          rw [borrow_after_unlinkC s c wc hb h2]
          rw [herase]
        obtain ⟨hInv2, hNL2⟩ := links_pres_unlink_core s s2 c wc hChild hParE hb hNL desc
        refine ⟨hInv2, hNL2, by rw [hs2], ?_⟩
        refine ⟨{ wc with parent := Handle.NONE }, ?_, rfl⟩
        rw [desc c, if_pos rfl]
      · cases hbP : s.nodes.borrow wc.parent with
        | none =>
          rw [unlink_dead_parent s c wc hb hp hpc hbP] at he
          exact absurd he Option.noConfusion
        | some wp =>
          rw [unlink_eq_parent s c wc wc.parent wp hb rfl hp hpc hbP] at he
          have hs2 : s2 = { s with nodes :=
              ⟨(s.nodes.records.set c.index
                  ⟨c.generation, some { wc with parent := Handle.NONE }⟩).set wc.parent.index
                ⟨wc.parent.generation,
                  some { wp with children := wp.children.erase c }⟩⟩ } :=
            (Option.some.inj he).symm
          have hnm : c ∉ wp.children := hNL wc.parent wp hbP
          have herase : wp.children.erase c = wp.children := List.erase_of_not_mem hnm
          have desc : ∀ h2, s2.nodes.borrow h2 =
              if h2 = c then some { wc with parent := Handle.NONE }
              else s.nodes.borrow h2 := by
            intro h2
            rw [hs2]
            rw [borrow_after_unlinkB s c wc wc.parent wp hb hbP hpc h2]
            by_cases hq : h2 = wc.parent
            · rw [if_pos hq]
              rw [if_neg (fun hcon : h2 = c => hpc (hq ▸ hcon))]
              rw [hq, hbP, herase]
            · rw [if_neg hq]
          obtain ⟨hInv2, hNL2⟩ := links_pres_unlink_core s s2 c wc hChild hParE hb hNL desc
          refine ⟨hInv2, hNL2, by rw [hs2], ?_⟩
          refine ⟨{ wc with parent := Handle.NONE }, ?_, rfl⟩
          rw [desc c, if_pos rfl]

/-- Invariant preservation for the relink half of link_nodes, child and
parent distinct: set the child's parent field and append it to the new
parent's children. -/
theorem links_pres_relink (s1 s2 : UserInterface) (c p : Handle) (wc1 wp1 : Widget)
    (hInv : LinksInv s1) (hNL : NotListed s1 c)
    (hb1 : s1.nodes.borrow c = some wc1)
    (hbp : s1.nodes.borrow p = some wp1)
    (hpc : p ≠ c)
    (desc : ∀ h2, s2.nodes.borrow h2 =
      if h2 = p then some { wp1 with children := wp1.children ++ [c] }
      else if h2 = c then some { wc1 with parent := p }
      else s1.nodes.borrow h2) :
    LinksInv s2 ∧
    (∃ wc2, s2.nodes.borrow c = some wc2 ∧ wc2.parent = p) ∧
    (∃ wp2, s2.nodes.borrow p = some wp2 ∧ wp2.children.count c = 1) := by
  obtain ⟨hChild, hParent⟩ := hInv
  have hcnt0 : wp1.children.count c = 0 := List.count_eq_zero_of_not_mem (hNL p wp1 hbp)
  have hones : ([c] : List Handle).count c = 1 := by
    rw [List.count_cons_self, List.count_nil]
  have hlift : ∀ c2 wc2, s1.nodes.borrow c2 = some wc2 → c2 ≠ c →
      ∃ wc3, s2.nodes.borrow c2 = some wc3 ∧ wc3.parent = wc2.parent := by
    intro c2 wc2 hbc2 hcc
    by_cases hc2p : c2 = p
    · refine ⟨{ wp1 with children := wp1.children ++ [c] }, ?_, ?_⟩
      · rw [desc c2, if_pos hc2p]
      · show wp1.parent = wc2.parent
        rw [hc2p] at hbc2
        rw [hbp] at hbc2
        have hwq : wc2 = wp1 := (Option.some.inj hbc2).symm
        rw [hwq]
    · refine ⟨wc2, ?_, rfl⟩
      rw [desc c2, if_neg hc2p, if_neg hcc]
      exact hbc2
  have hclift : ∀ (q : Handle) (c2 : Handle), c2 ≠ c →
      (∃ wq, s1.nodes.borrow q = some wq ∧ wq.children.count c2 = 1) →
      ∃ wq2, s2.nodes.borrow q = some wq2 ∧ wq2.children.count c2 = 1 := by
    intro q c2 hcc h
    obtain ⟨wq, hbq, hcnt⟩ := h
    by_cases hqp : q = p
    · refine ⟨{ wp1 with children := wp1.children ++ [c] }, ?_, ?_⟩
      · rw [desc q, if_pos hqp]
      · show (wp1.children ++ [c]).count c2 = 1
        have h0 : ([c] : List Handle).count c2 = 0 :=
          List.count_eq_zero_of_not_mem (by
            intro hm
            exact hcc (List.mem_singleton.1 hm))
        rw [List.count_append, h0, Nat.add_zero]
        rw [hqp] at hbq
        rw [hbp] at hbq
        have hwq : wq = wp1 := (Option.some.inj hbq).symm
        rw [← hwq]
        exact hcnt
    · by_cases hqc : q = c
      · refine ⟨{ wc1 with parent := p }, ?_, ?_⟩
        · rw [desc q, if_neg hqp, if_pos hqc]
        · show wc1.children.count c2 = 1
          rw [hqc] at hbq
          rw [hb1] at hbq
          have hwq : wq = wc1 := (Option.some.inj hbq).symm
          rw [← hwq]
          exact hcnt
      · refine ⟨wq, ?_, hcnt⟩
        rw [desc q, if_neg hqp, if_neg hqc]
        exact hbq
  refine ⟨⟨?_, ?_⟩, ?_, ?_⟩
  · intro q wq2 hbq2 c2 hc2
    rw [desc q] at hbq2
    by_cases hqp : q = p
    · rw [if_pos hqp] at hbq2
      have hwq2 : wq2 = { wp1 with children := wp1.children ++ [c] } :=
        (Option.some.inj hbq2).symm
      rw [hwq2] at hc2
      have hc2m : c2 ∈ wp1.children ++ [c] := hc2
      rcases List.mem_append.1 hc2m with hmem | hsing
      · have hcc : c2 ≠ c := fun hcon => (hNL p wp1 hbp) (hcon ▸ hmem)
        obtain ⟨wc2, hbc2, hpar2⟩ := hChild p wp1 hbp c2 hmem
        obtain ⟨wc3, hbc3, hpar3⟩ := hlift c2 wc2 hbc2 hcc
        exact ⟨wc3, hbc3, by rw [hpar3, hpar2, hqp]⟩
      · have hc2c : c2 = c := List.mem_singleton.1 hsing
        refine ⟨{ wc1 with parent := p }, ?_, ?_⟩
        · rw [hc2c, desc c, if_neg (fun hcon => hpc hcon.symm), if_pos rfl]
        · show p = q
          rw [hqp]
    · rw [if_neg hqp] at hbq2
      by_cases hqc : q = c
      · rw [if_pos hqc] at hbq2
        have hwq2 : wq2 = { wc1 with parent := p } := (Option.some.inj hbq2).symm
        rw [hwq2] at hc2
        have hmem : c2 ∈ wc1.children := hc2
        have hcc : c2 ≠ c := fun hcon => (hNL c wc1 hb1) (hcon ▸ hmem)
        obtain ⟨wc2, hbc2, hpar2⟩ := hChild c wc1 hb1 c2 hmem
        obtain ⟨wc3, hbc3, hpar3⟩ := hlift c2 wc2 hbc2 hcc
        exact ⟨wc3, hbc3, by rw [hpar3, hpar2, hqc]⟩
      · rw [if_neg hqc] at hbq2
        have hcc : c2 ≠ c := fun hcon => (hNL q wq2 hbq2) (hcon ▸ hc2)
        obtain ⟨wc2, hbc2, hpar2⟩ := hChild q wq2 hbq2 c2 hc2
        obtain ⟨wc3, hbc3, hpar3⟩ := hlift c2 wc2 hbc2 hcc
        exact ⟨wc3, hbc3, by rw [hpar3, hpar2]⟩
  · intro c2 wc2 hbc2 hpar2
    rw [desc c2] at hbc2
    by_cases hc2p : c2 = p
    · rw [if_pos hc2p] at hbc2
      have hwc2 : wc2 = { wp1 with children := wp1.children ++ [c] } :=
        (Option.some.inj hbc2).symm
      have hparw : wc2.parent = wp1.parent := by rw [hwc2]
      rw [hparw] at hpar2 ⊢
      obtain ⟨wq2, hbq2, hcq2⟩ :=
        hclift wp1.parent p hpc (hParent p wp1 hbp hpar2)
      refine ⟨wq2, hbq2, ?_⟩
      rw [hc2p]
      exact hcq2
    · rw [if_neg hc2p] at hbc2
      by_cases hc2c : c2 = c
      · rw [if_pos hc2c] at hbc2
        have hwc2 : wc2 = { wc1 with parent := p } := (Option.some.inj hbc2).symm
        have hparw : wc2.parent = p := by rw [hwc2]
        rw [hparw]
        refine ⟨{ wp1 with children := wp1.children ++ [c] }, ?_, ?_⟩
        · rw [desc p, if_pos rfl]
        · show (wp1.children ++ [c]).count c2 = 1
          rw [hc2c, List.count_append, hcnt0, hones]
      · rw [if_neg hc2c] at hbc2
        exact hclift wc2.parent c2 hc2c (hParent c2 wc2 hbc2 hpar2)
  · refine ⟨{ wc1 with parent := p }, ?_, rfl⟩
    rw [desc c, if_neg (fun hcon => hpc hcon.symm), if_pos rfl]
  · refine ⟨{ wp1 with children := wp1.children ++ [c] }, ?_, ?_⟩
    · rw [desc p, if_pos rfl]
    · show (wp1.children ++ [c]).count c = 1
      rw [List.count_append, hcnt0, hones]

/-- Invariant preservation for a self-link: the node becomes its own
parent and is appended once to its own children list. -/
theorem links_pres_relink_self (s1 s2 : UserInterface) (c : Handle) (wc1 : Widget)
    (hInv : LinksInv s1) (hNL : NotListed s1 c)
    (hb1 : s1.nodes.borrow c = some wc1)
    (desc : ∀ h2, s2.nodes.borrow h2 =
      if h2 = c then some { wc1 with
        parent := c
        children := wc1.children ++ [c] }
      else s1.nodes.borrow h2) :
    LinksInv s2 ∧
    (∃ wc2, s2.nodes.borrow c = some wc2 ∧ wc2.parent = c) ∧
    (∃ wp2, s2.nodes.borrow c = some wp2 ∧ wp2.children.count c = 1) := by
  obtain ⟨hChild, hParent⟩ := hInv
  have hcnt0 : wc1.children.count c = 0 := List.count_eq_zero_of_not_mem (hNL c wc1 hb1)
  have hones : ([c] : List Handle).count c = 1 := by
    rw [List.count_cons_self, List.count_nil]
  refine ⟨⟨?_, ?_⟩, ?_, ?_⟩
  · intro q wq2 hbq2 c2 hc2
    rw [desc q] at hbq2
    by_cases hqc : q = c
    · rw [if_pos hqc] at hbq2
      have hwq2 : wq2 = { wc1 with
          parent := c
          children := wc1.children ++ [c] } := (Option.some.inj hbq2).symm
      rw [hwq2] at hc2
      have hc2m : c2 ∈ wc1.children ++ [c] := hc2
      rcases List.mem_append.1 hc2m with hmem | hsing
      · have hcc : c2 ≠ c := fun hcon => (hNL c wc1 hb1) (hcon ▸ hmem)
        obtain ⟨wc2, hbc2, hpar2⟩ := hChild c wc1 hb1 c2 hmem
        refine ⟨wc2, ?_, by rw [hpar2, hqc]⟩
        rw [desc c2, if_neg hcc]
        exact hbc2
      · have hc2c : c2 = c := List.mem_singleton.1 hsing
        refine ⟨{ wc1 with
            parent := c
            children := wc1.children ++ [c] }, ?_, ?_⟩
        · rw [hc2c, desc c, if_pos rfl]
        · show c = q
          rw [hqc]
    · rw [if_neg hqc] at hbq2
      have hcc : c2 ≠ c := fun hcon => (hNL q wq2 hbq2) (hcon ▸ hc2)
      obtain ⟨wc2, hbc2, hpar2⟩ := hChild q wq2 hbq2 c2 hc2
      refine ⟨wc2, ?_, hpar2⟩
      rw [desc c2, if_neg hcc]
      exact hbc2
  · intro c2 wc2 hbc2 hpar2
    rw [desc c2] at hbc2
    by_cases hc2c : c2 = c
    · rw [if_pos hc2c] at hbc2
      have hwc2 : wc2 = { wc1 with
          parent := c
          children := wc1.children ++ [c] } := (Option.some.inj hbc2).symm
      have hparw : wc2.parent = c := by rw [hwc2]
      rw [hparw]
      refine ⟨{ wc1 with
          parent := c
          children := wc1.children ++ [c] }, ?_, ?_⟩
      · rw [desc c, if_pos rfl]
      · show (wc1.children ++ [c]).count c2 = 1
        rw [hc2c, List.count_append, hcnt0, hones]
    · rw [if_neg hc2c] at hbc2
      obtain ⟨wq, hbq, hcnt⟩ := hParent c2 wc2 hbc2 hpar2
      by_cases hqc : wc2.parent = c
      · refine ⟨{ wc1 with
            parent := c
            children := wc1.children ++ [c] }, ?_, ?_⟩
        · rw [desc wc2.parent, if_pos hqc]
        · show (wc1.children ++ [c]).count c2 = 1
          have h0 : ([c] : List Handle).count c2 = 0 :=
            List.count_eq_zero_of_not_mem (by
              intro hm
              exact hc2c (List.mem_singleton.1 hm))
          rw [List.count_append, h0, Nat.add_zero]
          rw [hqc] at hbq
          rw [hb1] at hbq
          have hwq : wq = wc1 := (Option.some.inj hbq).symm
          rw [← hwq]
          exact hcnt
      · refine ⟨wq, ?_, hcnt⟩
        rw [desc wc2.parent, if_neg hqc]
        exact hbq
  · refine ⟨{ wc1 with
        parent := c
        children := wc1.children ++ [c] }, ?_, rfl⟩
    rw [desc c, if_pos rfl]
  · refine ⟨{ wc1 with
        parent := c
        children := wc1.children ++ [c] }, ?_, ?_⟩
    · rw [desc c, if_pos rfl]
    · show (wc1.children ++ [c]).count c = 1
      rw [List.count_append, hcnt0, hones]

/-- The relink half of link_nodes, given as the two successful pool
mutations: preserves the invariant and establishes both link
postconditions. -/
theorem links_pres_link_core (s1 s2 : UserInterface) (c p : Handle)
    (pool1 pool2 : Pool Widget)
    (hInv1 : LinksInv s1) (hNL1 : NotListed s1 c)
    (hm1 : s1.nodes.modifyAt c (fun cw => { cw with parent := p }) = some pool1)
    (hm2 : pool1.modifyAt p
      (fun pw => { pw with children := pw.children ++ [c] }) = some pool2)
    (hs2 : s2 = { s1 with nodes := pool2 }) :
    LinksInv s2 ∧ s2.root_canvas = s1.root_canvas ∧
    (∃ wc2, s2.nodes.borrow c = some wc2 ∧ wc2.parent = p) ∧
    (∃ wp2, s2.nodes.borrow p = some wp2 ∧ wp2.children.count c = 1) := by
  obtain ⟨wc1, hb1, hpool1⟩ := pool_modifyAt_some s1.nodes c _ pool1 hm1
  obtain ⟨b, hbb, hpool2⟩ := pool_modifyAt_some pool1 p _ pool2 hm2
  by_cases hpc : p = c
  · subst hpc
    have hbb2 : pool1.borrow p = some { wc1 with parent := p } := by
      rw [hpool1]
      exact pool_borrow_set_same s1.nodes p _ wc1 hb1
    have hbval : b = { wc1 with parent := p } :=
      Option.some.inj (hbb.symm.trans hbb2)
    have desc : ∀ h2, s2.nodes.borrow h2 =
        if h2 = p then some { b with children := b.children ++ [p] }
        else s1.nodes.borrow h2 := by
      intro h2
      rw [hs2]
      show pool2.borrow h2 = _
      rw [hpool2, hpool1]
      exact pool_borrow_set_set_self s1.nodes p wc1 _ _ hb1 h2
    rw [hbval] at desc
    obtain ⟨hI, hc2, hp2⟩ := links_pres_relink_self s1 s2 p wc1 hInv1 hNL1 hb1 desc
    exact ⟨hI, by rw [hs2], hc2, hp2⟩
  · have hbb2 : pool1.borrow p = s1.nodes.borrow p := by
      rw [hpool1]
      exact pool_borrow_set_other s1.nodes c p _ wc1 hb1 hpc
    have hbp : s1.nodes.borrow p = some b := hbb2.symm.trans hbb
    have desc : ∀ h2, s2.nodes.borrow h2 =
        if h2 = p then some { b with children := b.children ++ [c] }
        else if h2 = c then some { wc1 with parent := p }
        else s1.nodes.borrow h2 := by
      intro h2
      rw [hs2]
      show pool2.borrow h2 = _
      rw [hpool2, hpool1]
      exact pool_borrow_set_set s1.nodes c p wc1 b _ _ hb1 hbp hpc h2
    obtain ⟨hI, hc2, hp2⟩ :=
      links_pres_relink s1 s2 c p wc1 b hInv1 hNL1 hb1 hbp hpc desc
    exact ⟨hI, by rw [hs2], hc2, hp2⟩

/-- link_nodes from a consistent state: invariant preserved, child's
parent set, child listed exactly once under the new parent. -/
theorem link_pres (s s2 : UserInterface) (c p : Handle)
    (hInv : LinksInv s) (he : link_nodes s c p = some s2) :
    LinksInv s2 ∧ s2.root_canvas = s.root_canvas ∧
    (∃ wc2, s2.nodes.borrow c = some wc2 ∧ wc2.parent = p) ∧
    (∃ wp2, s2.nodes.borrow p = some wp2 ∧ wp2.children.count c = 1) := by
  unfold link_nodes at he
  cases hu : unlink_node s c with
  | none =>
    rw [hu] at he
    exact absurd he Option.noConfusion
  | some s1 =>
    rw [hu] at he
    dsimp only at he
    obtain ⟨hInv1, hNL1, hroot1, _⟩ := unlink_pres s s1 c hInv hu
    cases hm1 : s1.nodes.modifyAt c (fun cw => { cw with parent := p }) with
    | none =>
      rw [hm1] at he
      exact absurd he Option.noConfusion
    | some pool1 =>
      rw [hm1] at he
      dsimp only at he
      cases hm2 : pool1.modifyAt p
          (fun pw => { pw with children := pw.children ++ [c] }) with
      | none =>
        rw [hm2] at he
        exact absurd he Option.noConfusion
      | some pool2 =>
        rw [hm2] at he
        dsimp only at he
        have hs2 : s2 = { s1 with nodes := pool2 } := (Option.some.inj he).symm
        obtain ⟨hI, hroot2, hc2, hp2⟩ :=
          links_pres_link_core s1 s2 c p pool1 pool2 hInv1 hNL1 hm1 hm2 hs2
        exact ⟨hI, hroot2.trans hroot1, hc2, hp2⟩

/-- link_nodes across the weakened post-spawn invariant: the fresh
node's stale parent field is cleared by the unlink, restoring the full
invariant through the relink. -/
theorem link_pres_weak (s s2 : UserInterface) (c p : Handle)
    (hE : LinksInvExcept s c) (he : link_nodes s c p = some s2) :
    LinksInv s2 ∧ s2.root_canvas = s.root_canvas ∧
    (∃ wc2, s2.nodes.borrow c = some wc2 ∧ wc2.parent = p) ∧
    (∃ wp2, s2.nodes.borrow p = some wp2 ∧ wp2.children.count c = 1) := by
  unfold link_nodes at he
  cases hu : unlink_node s c with
  | none =>
    rw [hu] at he
    exact absurd he Option.noConfusion
  | some s1 =>
    rw [hu] at he
    dsimp only at he
    obtain ⟨hInv1, hNL1, hroot1, _⟩ := unlink_pres_weak s s1 c hE hu
    cases hm1 : s1.nodes.modifyAt c (fun cw => { cw with parent := p }) with
    | none =>
      rw [hm1] at he
      exact absurd he Option.noConfusion
    | some pool1 =>
      rw [hm1] at he
      dsimp only at he
      cases hm2 : pool1.modifyAt p
          (fun pw => { pw with children := pw.children ++ [c] }) with
      | none =>
        rw [hm2] at he
        exact absurd he Option.noConfusion
      | some pool2 =>
        rw [hm2] at he
        dsimp only at he
        have hs2 : s2 = { s1 with nodes := pool2 } := (Option.some.inj he).symm
        obtain ⟨hI, hroot2, hc2, hp2⟩ :=
          links_pres_link_core s1 s2 c p pool1 pool2 hInv1 hNL1 hm1 hm2 hs2
        exact ⟨hI, hroot2.trans hroot1, hc2, hp2⟩

/-- The linking loop of add_node preserves the invariant. -/
theorem link_all_pres (cs : List Handle) :
    ∀ (s s2 : UserInterface) (p : Handle),
      LinksInv s → link_all s cs p = some s2 →
      LinksInv s2 ∧ s2.root_canvas = s.root_canvas := by
  induction cs with
  | nil =>
    intro s s2 p hInv he
    unfold link_all at he
    have hs2 : s2 = s := (Option.some.inj he).symm
    rw [hs2]
    exact ⟨hInv, rfl⟩
  | cons ch rest ih =>
    intro s s2 p hInv he
    unfold link_all at he
    cases hl : link_nodes s ch p with
    | none =>
      rw [hl] at he
      exact absurd he Option.noConfusion
    | some s1 =>
      rw [hl] at he
      dsimp only at he
      obtain ⟨hInv1, hroot1, _, _⟩ := link_pres s s1 ch p hInv hl
      obtain ⟨hInv2, hroot2⟩ := ih s1 s2 p hInv1 he
      exact ⟨hInv2, hroot2.trans hroot1⟩

/-- Spawning a widget with an emptied children list yields the weakened
invariant with the fresh handle exempted: the new node may still carry
its caller-supplied parent field, but nobody lists it. -/
theorem spawn_links_except (s : UserInterface) (w : Widget)
    (hInv : LinksInv s) (hwc : w.children = []) :
    LinksInvExcept { s with nodes := (s.nodes.spawn w).1 }
      (⟨s.nodes.records.length, 1⟩ : Handle) := by
  obtain ⟨hChild, hParent⟩ := hInv
  have hfresh : s.nodes.borrow ⟨s.nodes.records.length, 1⟩ = none :=
    pool_borrow_fresh s.nodes 1
  have hdesc : ∀ h2, ({ s with nodes := (s.nodes.spawn w).1 } :
        UserInterface).nodes.borrow h2 =
      if h2 = (⟨s.nodes.records.length, 1⟩ : Handle) then some w
      else s.nodes.borrow h2 := by
    intro h2
    exact pool_borrow_spawn s.nodes w h2
  refine ⟨?_, ?_, ?_⟩
  · intro p wp hbp c2 hc2
    rw [hdesc p] at hbp
    by_cases hp : p = (⟨s.nodes.records.length, 1⟩ : Handle)
    · rw [if_pos hp] at hbp
      have hwp : wp = w := (Option.some.inj hbp).symm
      rw [hwp, hwc] at hc2
      exact absurd hc2 (List.not_mem_nil c2)
    · rw [if_neg hp] at hbp
      obtain ⟨wc2, hbc2, hpar2⟩ := hChild p wp hbp c2 hc2
      have hcc : c2 ≠ (⟨s.nodes.records.length, 1⟩ : Handle) := by
        intro hcon
        rw [hcon] at hbc2
        rw [hfresh] at hbc2
        exact Option.noConfusion hbc2
      refine ⟨wc2, ?_, hpar2⟩
      rw [hdesc c2, if_neg hcc]
      exact hbc2
  · intro c2 wc2 hbc2 hpar2 hne
    rw [hdesc c2, if_neg hne] at hbc2
    obtain ⟨wp, hbp, hcnt⟩ := hParent c2 wc2 hbc2 hpar2
    have hpne : wc2.parent ≠ (⟨s.nodes.records.length, 1⟩ : Handle) := by
      intro hcon
      rw [hcon] at hbp
      rw [hfresh] at hbp
      exact Option.noConfusion hbp
    refine ⟨wp, ?_, hcnt⟩
    rw [hdesc wc2.parent, if_neg hpne]
    exact hbp
  · intro p wp hbp hmem
    rw [hdesc p] at hbp
    by_cases hp : p = (⟨s.nodes.records.length, 1⟩ : Handle)
    · rw [if_pos hp] at hbp
      have hwp : wp = w := (Option.some.inj hbp).symm
      rw [hwp, hwc] at hmem
      exact absurd hmem (List.not_mem_nil _)
    · rw [if_neg hp] at hbp
      obtain ⟨wc2, hbc2, _⟩ := hChild p wp hbp _ hmem
      rw [hfresh] at hbc2
      exact Option.noConfusion hbc2

/-- Unfolding of add_node with the let bindings resolved. -/
theorem add_node_eq (ui : UserInterface) (w : Widget) :
    add_node ui w =
      (match (if ui.root_canvas.is_some then
          link_nodes { ui with nodes := (ui.nodes.spawn { w with children := [] }).1 }
            ((ui.nodes.spawn { w with children := [] }).2) ui.root_canvas
        else some { ui with nodes := (ui.nodes.spawn { w with children := [] }).1 }) with
      | none => none
      | some ui2 =>
        match link_all ui2 w.children ((ui.nodes.spawn { w with children := [] }).2) with
        | none => none
        | some ui3 => some (ui3, (ui.nodes.spawn { w with children := [] }).2)) := rfl

/-- add_node from a consistent state with the concrete root canvas:
spawn, link under the root, link the original children. -/
theorem add_node_pres (s s2 : UserInterface) (w : Widget) (hnd : Handle)
    (hInv : LinksInv s) (hroot : s.root_canvas = (⟨0, 1⟩ : Handle))
    (he : add_node s w = some (s2, hnd)) :
    LinksInv s2 ∧ s2.root_canvas = (⟨0, 1⟩ : Handle) := by
  rw [add_node_eq s w] at he
  have hcond : s.root_canvas.is_some = true := by
    rw [hroot]
    decide
  rw [if_pos hcond] at he
  cases hl : link_nodes { s with nodes := (s.nodes.spawn { w with children := [] }).1 }
      ((s.nodes.spawn { w with children := [] }).2) s.root_canvas with
  | none =>
    rw [hl] at he
    exact absurd he Option.noConfusion
  | some ui2 =>
    rw [hl] at he
    dsimp only at he
    have hE : LinksInvExcept
        { s with nodes := (s.nodes.spawn { w with children := [] }).1 }
        ((s.nodes.spawn { w with children := [] }).2) :=
      spawn_links_except s { w with children := [] } hInv rfl
    obtain ⟨hInv2, hroot2, _, _⟩ := link_pres_weak _ ui2 _ _ hE hl
    cases ha : link_all ui2 w.children ((s.nodes.spawn { w with children := [] }).2) with
    | none =>
      rw [ha] at he
      exact absurd he Option.noConfusion
    | some ui3 =>
      rw [ha] at he
      dsimp only at he
      have hpair := Option.some.inj he
      have hs2 : s2 = ui3 := (congrArg Prod.fst hpair).symm
      obtain ⟨hInv3, hroot3⟩ := link_all_pres w.children ui2 ui3 _ hInv2 ha
      rw [hs2]
      refine ⟨hInv3, ?_⟩
      rw [hroot3, hroot2]
      exact hroot

/-- One mutating operation preserves the rooted link invariant. -/
theorem run_op_pres (s s2 : UserInterface) (op : UIOp)
    (hInv : RootedInv s) (he : run_op s op = some s2) :
    RootedInv s2 := by
  obtain ⟨hL, hR⟩ := hInv
  cases op with
  | addNodeOp w =>
    unfold run_op at he
    dsimp only at he
    cases ha : add_node s w with
    | none =>
      rw [ha] at he
      exact absurd he Option.noConfusion
    | some r =>
      rw [ha] at he
      have hs2 : s2 = r.1 := (Option.some.inj he).symm
      obtain ⟨hI3, hroot3⟩ := add_node_pres s r.1 w r.2 hL hR (by rw [ha])
      rw [hs2]
      exact ⟨hI3, hroot3⟩
  | linkOp c p =>
    unfold run_op at he
    dsimp only at he
    obtain ⟨hI, hroot2, _, _⟩ := link_pres s s2 c p hL he
    exact ⟨hI, hroot2.trans hR⟩
  | unlinkOp h =>
    unfold run_op at he
    dsimp only at he
    obtain ⟨hI, _, hroot2, _⟩ := unlink_pres s s2 h hL he
    exact ⟨hI, hroot2.trans hR⟩

/-- A whole operation sequence preserves the rooted link invariant. -/
theorem run_ops_pres (ops : List UIOp) :
    ∀ s s2 : UserInterface, RootedInv s → run_ops s ops = some s2 → RootedInv s2 := by
  induction ops with
  | nil =>
    intro s s2 hInv he
    unfold run_ops at he
    have hs2 : s2 = s := (Option.some.inj he).symm
    rw [hs2]
    exact hInv
  | cons op rest ih =>
    intro s s2 hInv he
    unfold run_ops at he
    cases ho : run_op s op with
    | none =>
      rw [ho] at he
      exact absurd he Option.noConfusion
    | some s1 =>
      rw [ho] at he
      dsimp only at he
      exact ih s1 s2 (run_op_pres s s1 op hInv ho) he

/-- Every live borrow in the freshly created interface sees the default
root canvas widget. -/
theorem init_borrow (h : Handle) (w : Widget)
    (hb : init_ui.nodes.borrow h = some w) : w = {} := by
  obtain ⟨hrec, hgen, hlt⟩ := pool_borrow_elim init_ui.nodes h w hb
  have hidx : h.index = 0 := by
    have h1 : h.index < 1 := hlt
    omega
  rw [hidx] at hrec
  have h0 : init_ui.nodes.records[(0 : Nat)]? =
      some (⟨1, some ({} : Widget)⟩ : PoolRecord Widget) := rfl
  rw [h0] at hrec
  have hrec2 := Option.some.inj hrec
  have hw : some ({} : Widget) = some w := congrArg PoolRecord.payload hrec2
  exact (Option.some.inj hw).symm

/-- The freshly created interface satisfies the rooted link invariant. -/
theorem init_rooted : RootedInv init_ui := by
  refine ⟨⟨?_, ?_⟩, rfl⟩
  · intro p wp hbp c hc
    rw [init_borrow p wp hbp] at hc
    exact absurd hc (List.not_mem_nil c)
  · intro c wc hbc hpar
    rw [init_borrow c wc hbc] at hpar
    exact absurd rfl hpar

/-- Every reachable interface satisfies the rooted link invariant. -/
theorem reachable_rooted (ui : UserInterface) (hr : Reachable ui) : RootedInv ui := by
  obtain ⟨ops, hops⟩ := hr
  exact run_ops_pres ops init_ui ui init_rooted hops

/-- Claim C9: link_nodes and unlink_node keep parent/child links
consistent on both sides. In every reachable state a node appears in a
live parent's children list iff that parent handle equals the node's
parent field; after a successful link_nodes(child, parent) from a
reachable state the child's parent field is the parent handle and the
child is listed exactly once under it; after a successful
unlink_node(child) the child's parent field is the null handle and the
child appears on no node's children list. -/
theorem claim_c9 :
    (∀ ui : UserInterface, Reachable ui →
      ∀ p wp c wc, ui.nodes.borrow p = some wp → ui.nodes.borrow c = some wc →
        (c ∈ wp.children ↔ wc.parent = p)) ∧
    (∀ (s s2 : UserInterface) (c p : Handle), Reachable s →
      link_nodes s c p = some s2 →
      (∃ wc2, s2.nodes.borrow c = some wc2 ∧ wc2.parent = p) ∧
      (∃ wp2, s2.nodes.borrow p = some wp2 ∧ wp2.children.count c = 1)) ∧
    (∀ (s s2 : UserInterface) (c : Handle), Reachable s →
      unlink_node s c = some s2 →
      (∃ wc2, s2.nodes.borrow c = some wc2 ∧ wc2.parent = Handle.NONE) ∧
      (∀ p wp, s2.nodes.borrow p = some wp → c ∉ wp.children)) := by
  refine ⟨?_, ?_, ?_⟩
  · intro ui hre p wp c wc hbp hbc
    obtain ⟨⟨hChild, hParent⟩, _⟩ := reachable_rooted ui hre
    constructor
    · intro hmem
      obtain ⟨wc2, hbc2, hpar2⟩ := hChild p wp hbp c hmem
      rw [hbc] at hbc2
      have hwc2 : wc = wc2 := Option.some.inj hbc2
      rw [hwc2]
      exact hpar2
    · intro hpar
      have hpn : wc.parent ≠ Handle.NONE := by
        rw [hpar]
        exact pool_borrow_ne_none ui.nodes p wp hbp
      obtain ⟨wq, hbq, hcnt⟩ := hParent c wc hbc hpn
      rw [hpar] at hbq
      rw [hbp] at hbq
      have hwq : wq = wp := (Option.some.inj hbq).symm
      rw [hwq] at hcnt
      have hpos : 0 < wp.children.count c := by
        rw [hcnt]
        exact Nat.zero_lt_one
      exact List.count_pos_iff.1 hpos
  · intro s s2 c p hre he
    obtain ⟨hL, _⟩ := reachable_rooted s hre
    obtain ⟨_, _, hc2, hp2⟩ := link_pres s s2 c p hL he
    exact ⟨hc2, hp2⟩
  · intro s s2 c hre he
    obtain ⟨hL, _⟩ := reachable_rooted s hre
    obtain ⟨_, hNL, _, hpost⟩ := unlink_pres s s2 c hL he
    exact ⟨hpost, hNL⟩

/-- Witness for claim C9: linking the root canvas onto itself from the
freshly created interface leaves its parent field set and lists it
exactly once in its own children list. -/
theorem claim_c9_witness :
    Reachable init_ui ∧
    link_nodes init_ui ⟨0, 1⟩ ⟨0, 1⟩ = some c9Linked ∧
    ((∃ wc2, c9Linked.nodes.borrow ⟨0, 1⟩ = some wc2 ∧ wc2.parent = ⟨0, 1⟩) ∧
     (∃ wp2, c9Linked.nodes.borrow ⟨0, 1⟩ = some wp2 ∧
       wp2.children.count ⟨0, 1⟩ = 1)) :=
  ⟨⟨[], rfl⟩, rfl, claim_c9.2.1 init_ui c9Linked ⟨0, 1⟩ ⟨0, 1⟩ ⟨[], rfl⟩ rfl⟩

end Rg3d
